import Mathlib

/-!
# Metabase upload state machine

A shallow embedding of `satellite/metainfo/metabase/commit.go`.

The relational store is a pair of row lists (`objects`, `segments`); every
operation is one transaction, written as a function from a store to a result
and the store after the call.  A transaction that returns an error is rolled
back, so the store after a failed call is the store before it.

Conventions.
* Go's `int32` / `int64` values are integers; the narrowing conversion
  `int32(len(segments))` and the `int64` accumulators of `CommitObject` wrap
  explicitly (`int32`, `int64` below), and the version `BeginObjectNextVersion`
  scans into an `int64` has to fit one.
* Byte arrays with a zero test (`uuid.UUID`, `storj.PieceID`) are natural
  numbers, the all-zero array being `0`.
* `ObjectStream.Verify` and `Pieces.Verify` are not part of the sources at
  hand; every operation takes them through `Deps`.
* The SQL schema is not part of the sources either; the constraints and
  column defaults the statements rely on are spelled out where they are used.
-/

namespace Metabase

/-! ## Machine integers -/

/-- Two's complement truncation of an integer to 32 bits (Go's `int32(x)`). -/
def int32 (x : Int) : Int := (x + 2147483648) % 4294967296 - 2147483648

/-- Two's complement truncation of an integer to 64 bits (Go's `int64` arithmetic). -/
def int64 (x : Int) : Int :=
  (x + 9223372036854775808) % 18446744073709551616 - 9223372036854775808

/-- The value fits Go's `int32`. -/
def IsInt32 (x : Int) : Prop := -2147483648 ≤ x ∧ x < 2147483648

instance (x : Int) : Decidable (IsInt32 x) := by unfold IsInt32; infer_instance

/-- The value fits Go's `int64`. -/
def IsInt64 (x : Int) : Prop := -9223372036854775808 ≤ x ∧ x < 9223372036854775808

instance (x : Int) : Decidable (IsInt64 x) := by unfold IsInt64; infer_instance

/-! ## Errors -/

/-- The error classes of `zeebo/errs` that the metabase uses: `Error` (the
generic class of the package), `ErrInvalidRequest`, `ErrConflict` and
`storj.ErrObjectNotFound`. -/
inductive ErrClass where
  | Metabase
  | InvalidRequest
  | Conflict
  | ObjectNotFound
deriving DecidableEq, Repr

/-- An error value: the classes it belongs to (outermost first) and its message. -/
structure Err where
  classes : List ErrClass
  msg : String
deriving DecidableEq, Repr

/-- The test `class.Has(err)`. -/
def Err.Has (e : Err) (c : ErrClass) : Prop := c ∈ e.classes

instance (e : Err) (c : ErrClass) : Decidable (e.Has c) := by unfold Err.Has; infer_instance

/-- The constructor `Error.New(msg)`. -/
def Error.New (msg : String) : Err := ⟨[ErrClass.Metabase], msg⟩

/-- The constructor `ErrInvalidRequest.New(msg)`. -/
def ErrInvalidRequest.New (msg : String) : Err := ⟨[ErrClass.InvalidRequest], msg⟩

/-- The constructor `ErrConflict.New(msg)`. -/
def ErrConflict.New (msg : String) : Err := ⟨[ErrClass.Conflict], msg⟩

/-- The wrapper `storj.ErrObjectNotFound.Wrap(err)`: the class is added in front. -/
def ErrObjectNotFound.Wrap (e : Err) : Err := ⟨ErrClass.ObjectNotFound :: e.classes, e.msg⟩

/-! ## Data model -/

abbrev UUID := Nat
abbrev PieceID := Nat
abbrev NodeID := Nat
abbrev Time := Nat
abbrev Bytes := List Nat

/-- The method `Compare` of `uuid.UUID` (`bytes.Compare` on the 16 bytes): on
the numeric values of the arrays it is the comparison of numbers. -/
def UUID.Compare (a b : UUID) : Int :=
  if a < b then -1 else if a = b then 0 else 1

/-- The method `IsZero` of `storj.PieceID`. -/
def PieceID.IsZero (id : PieceID) : Bool := id == 0

/-- The version type of an object (`int64`). -/
abbrev Version := Int

/-- Modelled from the spec: the sentinel `NextVersion = 0`, which asks for
auto-assignment; the constant is declared outside `commit.go`. -/
def NextVersion : Version := 0

/-- Modelled from the spec: `Status ∈ {Pending, Committed}`; the constants
`pendingStatus`, `committedStatus` and `Committed` are declared outside
`commit.go`.  `Unspecified` is the zero value of the Go type. -/
inductive ObjectStatus where
  | Unspecified
  | Pending
  | Committed
deriving DecidableEq, Repr

/-- The type `storj.EncryptionParameters`. -/
structure EncryptionParameters where
  CipherSuite : Nat
  BlockSize : Int
deriving DecidableEq, Repr

/-- The constant `storj.EncUnspecified`. -/
def EncUnspecified : Nat := 0

/-- The method `IsZero` of `storj.EncryptionParameters`: equality with the zero value. -/
def EncryptionParameters.IsZero (p : EncryptionParameters) : Bool :=
  decide (p = ⟨0, 0⟩)

/-- The type `storj.RedundancyScheme`. -/
structure RedundancyScheme where
  Algorithm : Nat
  ShareSize : Int
  RequiredShares : Int
  RepairShares : Int
  OptimalShares : Int
  TotalShares : Int
deriving DecidableEq, Repr

/-- The method `IsZero` of `storj.RedundancyScheme`: equality with the zero value. -/
def RedundancyScheme.IsZero (r : RedundancyScheme) : Bool :=
  decide (r = ⟨0, 0, 0, 0, 0, 0⟩)

/-- Modelled from the spec: `Position` is `(Part: u32, Index: u32)`. -/
structure SegmentPosition where
  Part : Nat
  Index : Nat
deriving DecidableEq, Repr

/-- Modelled from the spec: positions compare lexicographically, `Part` first,
then `Index`; this is the order of `ORDER BY position`. -/
def SegmentPosition.le (a b : SegmentPosition) : Prop :=
  a.Part < b.Part ∨ (a.Part = b.Part ∧ a.Index ≤ b.Index)

instance (a b : SegmentPosition) : Decidable (a.le b) := by
  unfold SegmentPosition.le; infer_instance

/-- The order of positions is total. -/
instance : IsTotal SegmentPosition SegmentPosition.le :=
  ⟨fun a b => by unfold SegmentPosition.le; omega⟩

/-- The order of positions is transitive. -/
instance : IsTrans SegmentPosition SegmentPosition.le :=
  ⟨fun a b c h₁ h₂ => by unfold SegmentPosition.le at *; omega⟩

/-- Modelled from the spec: `Position` compares lexicographically by
`(Part, Index)`; this is the method `SegmentPosition.Less`, which is declared
outside the sources at hand. -/
def SegmentPosition.Less (a b : SegmentPosition) : Bool :=
  decide (a.Part < b.Part ∨ (a.Part = b.Part ∧ a.Index < b.Index))

/-- Modelled from the spec: a piece is `(Number: u16, StorageNodeID)`. -/
structure Piece where
  Number : Nat
  StorageNode : NodeID
deriving DecidableEq, Repr

abbrev Pieces := List Piece

/-- The identity of an object stream (`ObjectStream`, embedded in every request). -/
structure ObjectStream where
  ProjectID : UUID
  BucketName : String
  ObjectKey : String
  Version : Version
  StreamID : UUID
deriving DecidableEq, Repr

/-- A row of the `objects` table, with the columns `commit.go` reads or writes. -/
structure ObjectRow where
  ProjectID : UUID
  BucketName : String
  ObjectKey : String
  Version : Version
  StreamID : UUID
  CreatedAt : Time
  ExpiresAt : Option Time
  Status : ObjectStatus
  SegmentCount : Int
  EncryptedMetadataNonce : Bytes
  EncryptedMetadata : Bytes
  EncryptedMetadataEncryptedKey : Bytes
  TotalPlainSize : Int
  TotalEncryptedSize : Int
  FixedSegmentSize : Int
  Encryption : EncryptionParameters
  ZombieDeletionDeadline : Option Time
deriving DecidableEq, Repr

/-- A row of the `segments` table.  A column that an `INSERT` does not name
keeps its default, written `none`. -/
structure SegmentRow where
  StreamID : UUID
  Position : SegmentPosition
  RootPieceID : PieceID
  EncryptedKeyNonce : Bytes
  EncryptedKey : Bytes
  EncryptedSize : Int
  PlainOffset : Int
  PlainSize : Int
  Redundancy : Option RedundancyScheme
  RemotePieces : Option Pieces
  InlineData : Option Bytes
deriving DecidableEq, Repr

/-- The order of `ORDER BY position` on segment rows is total. -/
instance : IsTotal SegmentRow (fun a b => a.Position.le b.Position) :=
  ⟨fun a b => total_of SegmentPosition.le a.Position b.Position⟩

/-- The order of `ORDER BY position` on segment rows is transitive. -/
instance : IsTrans SegmentRow (fun a b => a.Position.le b.Position) :=
  ⟨fun _ _ _ h₁ h₂ => @IsTrans.trans SegmentPosition SegmentPosition.le _ _ _ _ h₁ h₂⟩

/-- The Go type `Object`, with the fields `CommitObject` sets. -/
structure Object where
  ProjectID : UUID
  BucketName : String
  ObjectKey : String
  Version : Version
  StreamID : UUID
  CreatedAt : Time
  ExpiresAt : Option Time
  Status : ObjectStatus
  SegmentCount : Int
  EncryptedMetadataNonce : Bytes
  EncryptedMetadata : Bytes
  EncryptedMetadataEncryptedKey : Bytes
  TotalPlainSize : Int
  TotalEncryptedSize : Int
  FixedSegmentSize : Int
  Encryption : EncryptionParameters
deriving DecidableEq, Repr

/-- The zero value `Object{}`. -/
def Object.zero : Object :=
  ⟨0, "", "", 0, 0, 0, none, ObjectStatus.Unspecified, 0, [], [], [], 0, 0, 0, ⟨0, 0⟩⟩

/-- The database: the two tables. -/
structure DB where
  objects : List ObjectRow
  segments : List SegmentRow
deriving DecidableEq, Repr

/-- The store without rows. -/
def DB.empty : DB := ⟨[], []⟩

/-- What the operations use and `commit.go` does not define: the two `Verify`
methods (each returns `nil`, here `none`, or an error) and the clock behind the
`created_at` default. -/
structure Deps where
  verifyObjectStream : ObjectStream → Option Err
  verifyPieces : Pieces → Option Err
  now : Time

/-! ## Table access -/

/-- The key columns `project_id, bucket_name, object_key` of the statements'
`WHERE` clauses. -/
def ObjectRow.hasKey (r : ObjectRow) (o : ObjectStream) : Bool :=
  decide (r.ProjectID = o.ProjectID ∧ r.BucketName = o.BucketName ∧ r.ObjectKey = o.ObjectKey)

/-- The `WHERE` clause shared by the status checks and updates: `project_id`,
`bucket_name`, `object_key`, `version`, `stream_id` and `status` all agree. -/
def ObjectRow.matchesStream (r : ObjectRow) (o : ObjectStream) (st : ObjectStatus) : Bool :=
  decide (r.ProjectID = o.ProjectID ∧ r.BucketName = o.BucketName ∧ r.ObjectKey = o.ObjectKey ∧
    r.Version = o.Version ∧ r.StreamID = o.StreamID ∧ r.Status = st)

/-- The query `SELECT 1 FROM objects WHERE ... AND status = pendingStatus`
returns a row. -/
def DB.hasPending (db : DB) (o : ObjectStream) : Bool :=
  db.objects.any (fun r => r.matchesStream o ObjectStatus.Pending)

/-- Modelled from the spec: the `objects` table has the unique key
`(project, bucket, key, version)` ("a duplicate `(project, bucket, key,
version)` → `Conflict`"); the schema is not part of the sources.  The test
says whether inserting the key raises a unique violation. -/
def DB.objectKeyTaken (db : DB) (o : ObjectStream) (v : Version) : Bool :=
  db.objects.any (fun r => r.hasKey o && decide (r.Version = v))

/-- Modelled from the spec: the `segments` table has the unique key
`(StreamID, Position)` ("`(StreamID, Position)` is unique"); the schema is not
part of the sources.  The test says whether inserting the key raises a unique
violation. -/
def DB.segmentKeyTaken (db : DB) (streamID : UUID) (pos : SegmentPosition) : Bool :=
  db.segments.any (fun r => decide (r.StreamID = streamID ∧ r.Position = pos))

/-- The greatest element of a list of versions (`ORDER BY version DESC LIMIT 1`). -/
def maxVersion : List Version → Option Version
  | [] => none
  | v :: vs => some (vs.foldl max v)

/-- The subquery of `BeginObjectNextVersion`:
`coalesce((SELECT version + 1 FROM objects WHERE <key> ORDER BY version DESC LIMIT 1), 1)`,
whose value the code scans into an `int64` (`var v int64; row.Scan(&v)`).
Modelled from the spec: `Version` is an `i64`; a sum `version + 1` that does
not fit an `int64` is an error of the statement, `none`. -/
def DB.nextVersion (db : DB) (o : ObjectStream) : Option Version :=
  match maxVersion ((db.objects.filter (fun r => r.hasKey o)).map (fun r => r.Version)) with
  | some v => if IsInt64 (v + 1) then some (v + 1) else none
  | none => some 1

/-- The row written by the two `INSERT INTO objects` statements: the named
columns come from the request.  Modelled from the spec: the object is inserted
`Pending` with zero aggregates and no metadata (the defaults of the columns
the statements do not name). -/
def newObjectRow (d : Deps) (o : ObjectStream) (v : Version) (expiresAt : Option Time)
    (enc : EncryptionParameters) (zombie : Option Time) : ObjectRow :=
  { ProjectID := o.ProjectID, BucketName := o.BucketName, ObjectKey := o.ObjectKey,
    Version := v, StreamID := o.StreamID, CreatedAt := d.now, ExpiresAt := expiresAt,
    Status := ObjectStatus.Pending, SegmentCount := 0,
    EncryptedMetadataNonce := [], EncryptedMetadata := [], EncryptedMetadataEncryptedKey := [],
    TotalPlainSize := 0, TotalEncryptedSize := 0, FixedSegmentSize := 0,
    Encryption := enc, ZombieDeletionDeadline := zombie }

/-- An `INSERT INTO objects`: `none` on a unique violation, else the store with the new row. -/
def DB.insertObject (db : DB) (o : ObjectStream) (row : ObjectRow) : Option DB :=
  if db.objectKeyTaken o row.Version then none
  else some { db with objects := db.objects ++ [row] }

/-- An `INSERT INTO segments`: `none` on a unique violation, else the store with the new row. -/
def DB.insertSegment (db : DB) (row : SegmentRow) : Option DB :=
  if db.segmentKeyTaken row.StreamID row.Position then none
  else some { db with segments := db.segments ++ [row] }

/-! ## Requests -/

/-- Arguments of `BeginObjectNextVersion`. -/
structure BeginObjectNextVersion extends ObjectStream where
  ExpiresAt : Option Time
  ZombieDeletionDeadline : Option Time
  Encryption : EncryptionParameters
deriving DecidableEq, Repr

/-- Arguments of `BeginObjectExactVersion`. -/
structure BeginObjectExactVersion extends ObjectStream where
  ExpiresAt : Option Time
  ZombieDeletionDeadline : Option Time
  Encryption : EncryptionParameters
deriving DecidableEq, Repr

/-- Arguments of `BeginSegment`. -/
structure BeginSegment extends ObjectStream where
  Position : SegmentPosition
  RootPieceID : PieceID
  Pieces : Pieces
deriving DecidableEq, Repr

/-- Arguments of `CommitSegment`. -/
structure CommitSegment extends ObjectStream where
  Position : SegmentPosition
  RootPieceID : PieceID
  EncryptedKeyNonce : Bytes
  EncryptedKey : Bytes
  PlainOffset : Int
  PlainSize : Int
  EncryptedSize : Int
  Redundancy : RedundancyScheme
  Pieces : Pieces
deriving DecidableEq, Repr

/-- Arguments of `CommitInlineSegment`. -/
structure CommitInlineSegment extends ObjectStream where
  Position : SegmentPosition
  EncryptedKeyNonce : Bytes
  EncryptedKey : Bytes
  PlainOffset : Int
  PlainSize : Int
  InlineData : Bytes
deriving DecidableEq, Repr

/-- Arguments of `CommitObject`. -/
structure CommitObject extends ObjectStream where
  EncryptedMetadata : Bytes
  EncryptedMetadataNonce : Bytes
  EncryptedMetadataEncryptedKey : Bytes
deriving DecidableEq, Repr

/-- Arguments of `UpdateObjectMetadata`. -/
structure UpdateObjectMetadata extends ObjectStream where
  EncryptedMetadata : Bytes
  EncryptedMetadataNonce : Bytes
  EncryptedMetadataEncryptedKey : Bytes
deriving DecidableEq, Repr

/-! ## Operations

Each operation returns what the Go method returns, paired with the store after
the call. -/

/-- The method `DB.BeginObjectNextVersion`.  A statement that fails (the
version does not fit, or a unique violation) inserts nothing and makes
`row.Scan` return an error: `-1` and `Error.New("unable to insert object: ...")`. -/
def DB.BeginObjectNextVersion (db : DB) (d : Deps) (opts : BeginObjectNextVersion) :
    (Version × Option Err) × DB :=
  match d.verifyObjectStream opts.toObjectStream with
  | some err => ((-1, some err), db)
  | none =>
    if opts.Encryption.IsZero || opts.Encryption.CipherSuite == EncUnspecified then
      ((-1, some (ErrInvalidRequest.New "Encryption is missing")), db)
    else if opts.Encryption.BlockSize ≤ 0 then
      ((-1, some (ErrInvalidRequest.New "Encryption.BlockSize is negative or zero")), db)
    else if opts.Version ≠ NextVersion then
      ((-1, some (ErrInvalidRequest.New "Version should be metabase.NextVersion")), db)
    else
      match db.nextVersion opts.toObjectStream with
      | none => ((-1, some (Error.New "unable to insert object")), db)
      | some v =>
        match db.insertObject opts.toObjectStream
            (newObjectRow d opts.toObjectStream v opts.ExpiresAt opts.Encryption
              opts.ZombieDeletionDeadline) with
        | none => ((-1, some (Error.New "unable to insert object")), db)
        | some db1 => ((v, none), db1)

/-- The method `DB.BeginObjectExactVersion`. -/
def DB.BeginObjectExactVersion (db : DB) (d : Deps) (opts : BeginObjectExactVersion) :
    (Version × Option Err) × DB :=
  match d.verifyObjectStream opts.toObjectStream with
  | some err => ((-1, some err), db)
  | none =>
    if opts.Encryption.IsZero || opts.Encryption.CipherSuite == EncUnspecified then
      ((-1, some (ErrInvalidRequest.New "Encryption is missing")), db)
    else if opts.Encryption.BlockSize ≤ 0 then
      ((-1, some (ErrInvalidRequest.New "Encryption.BlockSize is negative or zero")), db)
    else if opts.Version = NextVersion then
      ((-1, some (ErrInvalidRequest.New "Version should not be metabase.NextVersion")), db)
    else
      match db.insertObject opts.toObjectStream
          (newObjectRow d opts.toObjectStream opts.Version opts.ExpiresAt opts.Encryption
            opts.ZombieDeletionDeadline) with
      | none => ((-1, some (ErrConflict.New "object already exists")), db)
      | some db1 => ((opts.Version, none), db1)

/-- The method `DB.BeginSegment`.  The second query (does the segment exist?)
has its result discarded: `err = nil; return nil`. -/
def DB.BeginSegment (db : DB) (d : Deps) (opts : BeginSegment) : Option Err × DB :=
  match d.verifyObjectStream opts.toObjectStream with
  | some err => (some err, db)
  | none =>
    match d.verifyPieces opts.Pieces with
    | some err => (some err, db)
    | none =>
      if opts.RootPieceID.IsZero then (some (ErrInvalidRequest.New "RootPieceID missing"), db)
      else if !db.hasPending opts.toObjectStream then
        (some (Error.New "pending object missing"), db)
      else
        let _exists := db.segmentKeyTaken opts.StreamID opts.Position
        (none, db)

/-- The argument checks of `CommitSegment` after the two `Verify` calls (the `switch`). -/
def CommitSegment.check (opts : CommitSegment) : Option Err :=
  if opts.RootPieceID.IsZero then some (ErrInvalidRequest.New "RootPieceID missing")
  else if opts.EncryptedKey.length = 0 then some (ErrInvalidRequest.New "EncryptedKey missing")
  else if opts.EncryptedKeyNonce.length = 0 then
    some (ErrInvalidRequest.New "EncryptedKeyNonce missing")
  else if opts.EncryptedSize ≤ 0 then some (ErrInvalidRequest.New "EncryptedSize negative or zero")
  else if opts.PlainSize ≤ 0 then some (ErrInvalidRequest.New "PlainSize negative or zero")
  else if opts.PlainOffset < 0 then some (ErrInvalidRequest.New "PlainOffset negative")
  else if opts.Redundancy.IsZero then some (ErrInvalidRequest.New "Redundancy zero")
  else none

/-- The row written by `CommitSegment`. -/
def CommitSegment.row (opts : CommitSegment) : SegmentRow :=
  { StreamID := opts.StreamID, Position := opts.Position, RootPieceID := opts.RootPieceID,
    EncryptedKeyNonce := opts.EncryptedKeyNonce, EncryptedKey := opts.EncryptedKey,
    EncryptedSize := opts.EncryptedSize, PlainOffset := opts.PlainOffset,
    PlainSize := opts.PlainSize, Redundancy := some opts.Redundancy,
    RemotePieces := some opts.Pieces, InlineData := none }

/-- The method `DB.CommitSegment`. -/
def DB.CommitSegment (db : DB) (d : Deps) (opts : CommitSegment) : Option Err × DB :=
  match d.verifyObjectStream opts.toObjectStream with
  | some err => (some err, db)
  | none =>
    match d.verifyPieces opts.Pieces with
    | some err => (some err, db)
    | none =>
      match opts.check with
      | some err => (some err, db)
      | none =>
        if !db.hasPending opts.toObjectStream then
          (some (Error.New "pending object missing"), db)
        else
          match db.insertSegment opts.row with
          | none => (some (ErrConflict.New "segment already exists"), db)
          | some db1 => (none, db1)

/-- The argument checks of `CommitInlineSegment` after `Verify` (the `switch`). -/
def CommitInlineSegment.check (opts : CommitInlineSegment) : Option Err :=
  if opts.InlineData.length = 0 then some (ErrInvalidRequest.New "InlineData missing")
  else if opts.EncryptedKey.length = 0 then some (ErrInvalidRequest.New "EncryptedKey missing")
  else if opts.EncryptedKeyNonce.length = 0 then
    some (ErrInvalidRequest.New "EncryptedKeyNonce missing")
  else if opts.PlainSize ≤ 0 then some (ErrInvalidRequest.New "PlainSize negative or zero")
  else if opts.PlainOffset < 0 then some (ErrInvalidRequest.New "PlainOffset negative")
  else none

/-- The row written by `CommitInlineSegment`: the root piece id is the zero
`storj.PieceID{}` and the encrypted size is `len(opts.InlineData)`. -/
def CommitInlineSegment.row (opts : CommitInlineSegment) : SegmentRow :=
  { StreamID := opts.StreamID, Position := opts.Position, RootPieceID := 0,
    EncryptedKeyNonce := opts.EncryptedKeyNonce, EncryptedKey := opts.EncryptedKey,
    EncryptedSize := opts.InlineData.length, PlainOffset := opts.PlainOffset,
    PlainSize := opts.PlainSize, Redundancy := none,
    RemotePieces := none, InlineData := some opts.InlineData }

/-- The method `DB.CommitInlineSegment`. -/
def DB.CommitInlineSegment (db : DB) (d : Deps) (opts : CommitInlineSegment) : Option Err × DB :=
  match d.verifyObjectStream opts.toObjectStream with
  | some err => (some err, db)
  | none =>
    match opts.check with
    | some err => (some err, db)
    | none =>
      if !db.hasPending opts.toObjectStream then
        (some (Error.New "pending object missing"), db)
      else
        match db.insertSegment opts.row with
        | none => (some (ErrConflict.New "segment already exists"), db)
        | some db1 => (none, db1)

/-- The local type `Segment` of `CommitObject`: the four columns it selects. -/
structure Segment where
  Position : SegmentPosition
  EncryptedSize : Int
  PlainOffset : Int
  PlainSize : Int
deriving DecidableEq, Repr

/-- The rows of `SELECT ... FROM segments WHERE stream_id = $1`, before ordering. -/
def DB.segmentsOf (db : DB) (streamID : UUID) : List SegmentRow :=
  db.segments.filter (fun r => decide (r.StreamID = streamID))

/-- The query of `CommitObject`:
`SELECT position, encrypted_size, plain_offset, plain_size FROM segments
WHERE stream_id = $1 ORDER BY position`, scanned into the slice `segments`. -/
def DB.querySegments (db : DB) (streamID : UUID) : List Segment :=
  ((db.segmentsOf streamID).insertionSort (fun a b => a.Position.le b.Position)).map
    (fun r => ⟨r.Position, r.EncryptedSize, r.PlainOffset, r.PlainSize⟩)

/-- The loop `for _, seg := range segments[:len(segments)-1]` of `CommitObject`,
started with the value of `fixedSegmentSize`: the first segment of another
size sets `-1` and breaks. -/
def fixedSegmentSizeLoop (fixedSegmentSize : Int) : List Segment → Int
  | [] => fixedSegmentSize
  | seg :: rest =>
    if seg.EncryptedSize ≠ fixedSegmentSize then -1
    else fixedSegmentSizeLoop fixedSegmentSize rest

/-- The computation of `fixedSegmentSize` in `CommitObject`. -/
def fixedSegmentSize (segments : List Segment) : Int :=
  match segments with
  | [] => 0
  | first :: _ => fixedSegmentSizeLoop first.EncryptedSize segments.dropLast

/-- The accumulator `totalPlainSize` of `CommitObject` (`int64`). -/
def totalPlainSize (segments : List Segment) : Int :=
  segments.foldl (fun acc seg => int64 (acc + seg.PlainSize)) 0

/-- The accumulator `totalEncryptedSize` of `CommitObject` (`int64`). -/
def totalEncryptedSize (segments : List Segment) : Int :=
  segments.foldl (fun acc seg => int64 (acc + seg.EncryptedSize)) 0

/-- The `SET` clause of the `UPDATE` of `CommitObject`, applied to one row. -/
def ObjectRow.commit (r : ObjectRow) (opts : CommitObject) (segments : List Segment) : ObjectRow :=
  { r with
    Status := ObjectStatus.Committed
    SegmentCount := segments.length
    EncryptedMetadataNonce := opts.EncryptedMetadataNonce
    EncryptedMetadata := opts.EncryptedMetadata
    EncryptedMetadataEncryptedKey := opts.EncryptedMetadataEncryptedKey
    TotalPlainSize := totalPlainSize segments
    TotalEncryptedSize := totalEncryptedSize segments
    FixedSegmentSize := fixedSegmentSize segments
    ZombieDeletionDeadline := none }

/-- The method `DB.CommitObject`.  The `UPDATE` changes every row its `WHERE`
clause selects; `QueryRow(...).Scan` reads the `RETURNING` columns of the first
one and reports `sql.ErrNoRows` when there is none. -/
def DB.CommitObject (db : DB) (d : Deps) (opts : CommitObject) : (Object × Option Err) × DB :=
  match d.verifyObjectStream opts.toObjectStream with
  | some err => ((Object.zero, some err), db)
  | none =>
    let segments := db.querySegments opts.StreamID
    match db.objects.find? (fun r => r.matchesStream opts.toObjectStream ObjectStatus.Pending) with
    | none =>
      ((Object.zero, some (ErrObjectNotFound.Wrap
        (Error.New "object with specified version and pending status is missing"))), db)
    | some row =>
      let object : Object :=
        { ProjectID := opts.ProjectID, BucketName := opts.BucketName, ObjectKey := opts.ObjectKey,
          Version := opts.Version, StreamID := opts.StreamID,
          CreatedAt := row.CreatedAt, ExpiresAt := row.ExpiresAt,
          Status := ObjectStatus.Committed,
          SegmentCount := int32 segments.length,
          EncryptedMetadataNonce := opts.EncryptedMetadataNonce,
          EncryptedMetadata := opts.EncryptedMetadata,
          EncryptedMetadataEncryptedKey := opts.EncryptedMetadataEncryptedKey,
          TotalPlainSize := totalPlainSize segments,
          TotalEncryptedSize := totalEncryptedSize segments,
          FixedSegmentSize := fixedSegmentSize segments,
          Encryption := row.Encryption }
      ((object, none),
        { db with objects := db.objects.map (fun r =>
            if r.matchesStream opts.toObjectStream ObjectStatus.Pending
            then r.commit opts segments else r) })

/-- The `SET` clause of the `UPDATE` of `UpdateObjectMetadata`, applied to one row. -/
def ObjectRow.setMetadata (r : ObjectRow) (opts : UpdateObjectMetadata) : ObjectRow :=
  { r with
    EncryptedMetadataNonce := opts.EncryptedMetadataNonce
    EncryptedMetadata := opts.EncryptedMetadata
    EncryptedMetadataEncryptedKey := opts.EncryptedMetadataEncryptedKey }

/-- The method `DB.UpdateObjectMetadata`: the `UPDATE` runs, then
`RowsAffected() == 0` gives `ErrObjectNotFound`. -/
def DB.UpdateObjectMetadata (db : DB) (d : Deps) (opts : UpdateObjectMetadata) : Option Err × DB :=
  match d.verifyObjectStream opts.toObjectStream with
  | some err => (some err, db)
  | none =>
    if opts.Version ≤ 0 then (some (ErrInvalidRequest.New "Version invalid"), db)
    else
      let affected := db.objects.countP
        (fun r => r.matchesStream opts.toObjectStream ObjectStatus.Committed)
      let db1 : DB := { db with objects := db.objects.map (fun r =>
        if r.matchesStream opts.toObjectStream ObjectStatus.Committed
        then r.setMetadata opts else r) }
      if affected = 0 then
        (some (ErrObjectNotFound.Wrap
          (Error.New "object with specified version and committed status is missing")), db1)
      else (none, db1)

/-! ## Sample values

Concrete stand-ins for what lies outside `commit.go`, used to run the
operations on explicit inputs. -/

/-- Modelled from the spec: `Pieces.Verify()` requires the set to be non-empty
and the piece numbers to be unique. -/
def specVerifyPieces (p : Pieces) : Option Err :=
  if p.length = 0 then some (ErrInvalidRequest.New "pieces missing")
  else if ¬ (p.map (fun x => x.Number)).Nodup then
    some (ErrInvalidRequest.New "duplicated piece number")
  else none

/-- A sample environment: every object stream passes `Verify`, pieces are
verified as the spec describes, and the clock reads `7`. -/
def sampleDeps : Deps := ⟨fun _ => none, specVerifyPieces, 7⟩

/-- A sample object stream. -/
def sampleStream : ObjectStream := ⟨1, "bucket", "key", 1, 9⟩

/-- A sample row of the `objects` table with the given status and stream. -/
def sampleObject (o : ObjectStream) (st : ObjectStatus) : ObjectRow :=
  { newObjectRow sampleDeps o o.Version none ⟨1, 256⟩ none with Status := st }

/-- A sample remote segment of stream `streamID` at position `(0, index)`. -/
def sampleSegment (streamID : UUID) (index : Nat) (plain encrypted : Int) : SegmentRow :=
  { StreamID := streamID, Position := ⟨0, index⟩, RootPieceID := 5,
    EncryptedKeyNonce := [1], EncryptedKey := [2],
    EncryptedSize := encrypted, PlainOffset := 0, PlainSize := plain,
    Redundancy := some ⟨1, 256, 1, 2, 3, 4⟩, RemotePieces := some [⟨0, 11⟩], InlineData := none }

/-- The store of the commit-aggregates scenario: one pending object and three
segments with plain sizes `[100, 100, 50]` and encrypted sizes `[256, 256, 128]`. -/
def scenarioDB : DB :=
  { objects := [sampleObject sampleStream ObjectStatus.Pending],
    segments := [sampleSegment 9 2 50 128, sampleSegment 9 0 100 256, sampleSegment 9 1 100 256] }

/-- A commit request for the sample stream. -/
def sampleCommit : CommitObject :=
  { sampleStream with EncryptedMetadata := [3], EncryptedMetadataNonce := [4],
                      EncryptedMetadataEncryptedKey := [5] }

/-- The segments of stream `9` at the positions `(0, 0), ..., (0, n - 1)`, each
of plain and encrypted size `1`. -/
@[irreducible]
def fullStreamSegments (n : Nat) : List SegmentRow :=
  (List.range n).map (fun i => sampleSegment 9 i 1 1)

/-- A store with one pending object and `2^31` segments of its stream. -/
def fullStreamDB : DB :=
  { objects := [sampleObject sampleStream ObjectStatus.Pending],
    segments := fullStreamSegments 2147483648 }

/-! ## Reachable stores -/

/-- The store states reachable from the empty store by calls of the seven
operations, with any arguments and any `Verify` methods. -/
inductive Reachable : DB → Prop where
  | empty : Reachable DB.empty
  | beginObjectNextVersion (db : DB) (d : Deps) (opts : BeginObjectNextVersion) :
      Reachable db → Reachable (db.BeginObjectNextVersion d opts).2
  | beginObjectExactVersion (db : DB) (d : Deps) (opts : BeginObjectExactVersion) :
      Reachable db → Reachable (db.BeginObjectExactVersion d opts).2
  | beginSegment (db : DB) (d : Deps) (opts : BeginSegment) :
      Reachable db → Reachable (db.BeginSegment d opts).2
  | commitSegment (db : DB) (d : Deps) (opts : CommitSegment) :
      Reachable db → Reachable (db.CommitSegment d opts).2
  | commitInlineSegment (db : DB) (d : Deps) (opts : CommitInlineSegment) :
      Reachable db → Reachable (db.CommitInlineSegment d opts).2
  | commitObject (db : DB) (d : Deps) (opts : CommitObject) :
      Reachable db → Reachable (db.CommitObject d opts).2
  | updateObjectMetadata (db : DB) (d : Deps) (opts : UpdateObjectMetadata) :
      Reachable db → Reachable (db.UpdateObjectMetadata d opts).2

/-- No two rows of the `objects` table carry the same `StreamID`. -/
def DB.DistinctStreams (db : DB) : Prop := (db.objects.map (fun r => r.StreamID)).Nodup

instance (db : DB) : Decidable db.DistinctStreams := by
  unfold DB.DistinctStreams; infer_instance

/-- The aggregates of row `o` are what `CommitObject` computes from the
segments now stored under its `StreamID`. -/
def DB.AggregatesComputed (db : DB) (o : ObjectRow) : Prop :=
  o.SegmentCount = (db.querySegments o.StreamID).length ∧
  o.TotalPlainSize = totalPlainSize (db.querySegments o.StreamID) ∧
  o.TotalEncryptedSize = totalEncryptedSize (db.querySegments o.StreamID)

/-- An exact-version request for stream `streamID` under key `key`. -/
def sampleBegin (key : String) (streamID : UUID) : BeginObjectExactVersion :=
  { ProjectID := 1, BucketName := "bucket", ObjectKey := key, Version := 1, StreamID := streamID,
    ExpiresAt := none, ZombieDeletionDeadline := none, Encryption := ⟨1, 256⟩ }

/-- A remote-segment request for stream `streamID` under key `key`. -/
def sampleCommitSegment (key : String) (streamID : UUID) (index : Nat) (plain encrypted : Int) :
    CommitSegment :=
  { ProjectID := 1, BucketName := "bucket", ObjectKey := key, Version := 1, StreamID := streamID,
    Position := ⟨0, index⟩, RootPieceID := 5, EncryptedKeyNonce := [1], EncryptedKey := [2],
    PlainOffset := 0, PlainSize := plain, EncryptedSize := encrypted,
    Redundancy := ⟨1, 256, 1, 2, 3, 4⟩, Pieces := [⟨0, 11⟩] }

/-- A commit request for stream `streamID` under key `key`. -/
def sampleCommitObject (key : String) (streamID : UUID) : CommitObject :=
  { ProjectID := 1, BucketName := "bucket", ObjectKey := key, Version := 1, StreamID := streamID,
    EncryptedMetadata := [3], EncryptedMetadataNonce := [4], EncryptedMetadataEncryptedKey := [5] }

/-- Two objects begun with the same `StreamID` under the keys `a` and `b`. -/
def sharedStreamBegun : DB :=
  ((DB.empty.BeginObjectExactVersion sampleDeps (sampleBegin "a" 9)).2.BeginObjectExactVersion
    sampleDeps (sampleBegin "b" 9)).2

/-- Object `a` is committed (without segments), then a segment is committed
through the still pending object `b`, which shares the stream. -/
def sharedStreamDB : DB :=
  ((sharedStreamBegun.CommitObject sampleDeps (sampleCommitObject "a" 9)).2.CommitSegment
    sampleDeps (sampleCommitSegment "b" 9 0 100 256)).2

/-- One object begun under key `a`, with two segments committed. -/
def uploadedDB : DB :=
  (((DB.empty.BeginObjectExactVersion sampleDeps (sampleBegin "a" 9)).2.CommitSegment
    sampleDeps (sampleCommitSegment "a" 9 0 100 256)).2.CommitSegment
    sampleDeps (sampleCommitSegment "a" 9 1 50 128)).2

/-- The upload of `uploadedDB`, committed. -/
def committedDB : DB := (uploadedDB.CommitObject sampleDeps (sampleCommitObject "a" 9)).2

/-- The row of object `a` in `committedDB`. -/
def committedRow : ObjectRow :=
  (sampleObject ⟨1, "bucket", "a", 1, 9⟩ ObjectStatus.Pending).commit (sampleCommitObject "a" 9)
    (uploadedDB.querySegments 9)

/-- An inline-segment request for stream `streamID` under key `key`. -/
def sampleCommitInline (key : String) (streamID : UUID) (index : Nat) : CommitInlineSegment :=
  { ProjectID := 1, BucketName := "bucket", ObjectKey := key, Version := 1, StreamID := streamID,
    Position := ⟨0, index⟩, EncryptedKeyNonce := [1], EncryptedKey := [2],
    PlainOffset := 0, PlainSize := 3, InlineData := [7, 8, 9] }

/-- The key `(StreamID, Position)` is unique in the `segments` table. -/
def DB.UniqueSegments (db : DB) : Prop :=
  (db.segments.map (fun r => (r.StreamID, r.Position))).Nodup

instance (db : DB) : Decidable db.UniqueSegments := by
  unfold DB.UniqueSegments; infer_instance

/-- The versions returned by `n` successive calls of `BeginObjectNextVersion`
with the request `opts`, and the store after the last call. -/
def beginNextVersions (d : Deps) (opts : BeginObjectNextVersion) : Nat → DB → List Version × DB
  | 0, db => ([], db)
  | n + 1, db =>
    let first := db.BeginObjectNextVersion d opts
    let rest := beginNextVersions d opts n first.2
    (first.1.1 :: rest.1, rest.2)

/-- A next-version request for the sample key. -/
def sampleBeginNext : BeginObjectNextVersion :=
  { ProjectID := 1, BucketName := "bucket", ObjectKey := "a", Version := NextVersion,
    StreamID := 9, ExpiresAt := none, ZombieDeletionDeadline := none, Encryption := ⟨1, 256⟩ }

/-- A next-version request whose encryption has block size `0`. -/
def sampleBadBlockSize : BeginObjectNextVersion :=
  { sampleBeginNext with Encryption := ⟨1, 0⟩ }

/-- An exact-version request whose version is the sentinel `NextVersion`. -/
def sampleBadVersion : BeginObjectExactVersion :=
  { sampleBegin "a" 9 with Version := NextVersion }

/-- A metadata update for stream `streamID` under key `key` at version `version`. -/
def sampleUpdate (key : String) (version : Version) (streamID : UUID) : UpdateObjectMetadata :=
  { ProjectID := 1, BucketName := "bucket", ObjectKey := key, Version := version,
    StreamID := streamID,
    EncryptedMetadata := [6], EncryptedMetadataNonce := [7], EncryptedMetadataEncryptedKey := [8] }

/-- A segment pre-flight request for stream `streamID` under key `key`. -/
def sampleBeginSegment (key : String) (streamID : UUID) (index : Nat) : BeginSegment :=
  { ProjectID := 1, BucketName := "bucket", ObjectKey := key, Version := 1, StreamID := streamID,
    Position := ⟨0, index⟩, RootPieceID := 5, Pieces := [⟨0, 11⟩] }

/-- The store after `BeginObjectExactVersion` for key `a` with the greatest
`int64` as version. -/
def maxVersionDB : DB :=
  (DB.empty.BeginObjectExactVersion sampleDeps
    { sampleBegin "a" 9 with Version := 9223372036854775807 }).2

/-- A sample environment whose `ObjectStream.Verify` rejects a stream without
`ProjectID` as an invalid request.  (`Verify` is not part of the sources at
hand; the spec lists missing fields under `InvalidRequest`.) -/
def rejectingDeps : Deps :=
  ⟨fun o => if o.ProjectID = 0 then some (ErrInvalidRequest.New "ProjectID missing") else none,
    specVerifyPieces, 7⟩

/-- A commit request without `ProjectID`. -/
def commitWithoutProject : CommitObject := { sampleCommit with ProjectID := 0 }

end Metabase

/-! # Audit queues

A shallow embedding of `satellite/audit/queue.go`.  The methods of `Queue` and
`Queues` run under the mutex of `Queues`, one at a time; each is a function
from the state before the call to the result and the state after it.  A
`*Queue` handed out by `Fetch` is no longer referenced by the `Queues` it came
from, so queues are values. -/

namespace Audit

open Metabase (UUID SegmentPosition)

/-- The error classes of the package that `queue.go` uses, and the error of a
finished `context.Context`. -/
inductive ErrClass where
  | EmptyQueue
  | PendingQueueInProgress
  | Context
deriving DecidableEq, Repr

/-- An error value: its class and its message. -/
structure Err where
  cls : ErrClass
  msg : String
deriving DecidableEq, Repr

/-- The constructor `ErrEmptyQueue.New(msg)`. -/
def ErrEmptyQueue.New (msg : String) : Err := ⟨ErrClass.EmptyQueue, msg⟩

/-- The constructor `ErrPendingQueueInProgress.New(msg)`. -/
def ErrPendingQueueInProgress.New (msg : String) : Err := ⟨ErrClass.PendingQueueInProgress, msg⟩

/-- The type `Segment` of the package, declared outside `queue.go`, with the
fields `queue.go` reads. -/
structure Segment where
  StreamID : UUID
  Position : SegmentPosition
deriving DecidableEq, Repr

/-- The zero value `Segment{}`. -/
def Segment.zero : Segment := ⟨0, ⟨0, 0⟩⟩

/-- The type `Queue`. -/
structure Queue where
  queue : List Segment
deriving DecidableEq, Repr

/-- The function `NewQueue`. -/
def NewQueue (segments : List Segment) : Queue := ⟨segments⟩

/-- The method `Queue.Size`. -/
def Queue.Size (q : Queue) : Nat := q.queue.length

/-- The method `Queue.Next`: the returned segment and error, and the queue
after the call.  The test `len(q.queue) == 0` is the case of the empty list;
otherwise `q.queue[0]` is returned and `q.queue[1:]` is kept. -/
def Queue.Next (q : Queue) : (Segment × Option Err) × Queue :=
  match q.queue with
  | [] => ((Segment.zero, some (ErrEmptyQueue.New "")), q)
  | next :: rest => ((next, none), { queue := rest })

/-- The state of the channel `queueSwapped`: the `nil` channel of a fresh
`Queues`, a channel made by `Push` and not yet closed, or a closed channel. -/
inductive Chan where
  | nil
  | made
  | closed
deriving DecidableEq, Repr

/-- The type `Queues`.  The field `swapQueue` is `nil` (`none`) or the closure
that `Push` builds, which is determined by the slice `pendingQueue` it
captured. -/
structure Queues where
  nextQueue : Queue
  swapQueue : Option (List Segment)
  queueSwapped : Chan
deriving DecidableEq, Repr

/-- The function `NewQueues`. -/
def NewQueues : Queues := { nextQueue := NewQueue [], swapQueue := none, queueSwapped := Chan.nil }

/-- The body of the closure that `Push` stores in `swapQueue`, run on the
current state.  `close` panics on a `nil` or closed channel: `none`. -/
def Queues.runSwap (queues : Queues) (pendingQueue : List Segment) : Option Queues :=
  match queues.queueSwapped with
  | Chan.made =>
    some { nextQueue := NewQueue pendingQueue, swapQueue := none, queueSwapped := Chan.closed }
  | _ => none

/-- The call `queues.swapQueue()` when `swapQueue` is not `nil`; the state is
kept when it is. -/
def Queues.callSwap (queues : Queues) : Option Queues :=
  match queues.swapQueue with
  | some pendingQueue => queues.runSwap pendingQueue
  | none => some queues

/-- The method `Queues.Fetch`: the returned queue and the state after the
call, or `none` when a `close` panics. -/
def Queues.Fetch (queues : Queues) : Option (Queue × Queues) :=
  let first : Option Queues :=
    if queues.nextQueue.Size = 0 ∧ queues.swapQueue ≠ none then queues.callSwap
    else some queues
  match first with
  | none => none
  | some q1 =>
    let active := q1.nextQueue
    if q1.swapQueue ≠ none then
      match q1.callSwap with
      | none => none
      | some q2 => some (active, q2)
    else some (active, { q1 with nextQueue := NewQueue [] })

/-- The method `Queues.Push`. -/
def Queues.Push (queues : Queues) (pendingQueue : List Segment) : Option Err × Queues :=
  if queues.swapQueue ≠ none then (some (ErrPendingQueueInProgress.New ""), queues)
  else if queues.nextQueue.Size = 0 then
    (none, { queues with nextQueue := NewQueue pendingQueue })
  else
    (none, { queues with queueSwapped := Chan.made, swapQueue := some pendingQueue })

/-- A `context.Context` as `WaitForSwap` sees it: `ctx.Err()`, which is not
`nil` exactly when the channel `ctx.Done()` is closed. -/
structure Context where
  Err : Option Err
deriving DecidableEq, Repr

/-- How a call of `WaitForSwap` ends when no other goroutine runs: it returns
an error value, or it stays blocked in its `select`. -/
inductive WaitResult where
  | returned (err : Option Err)
  | blocked
deriving DecidableEq, Repr

/-- The method `Queues.WaitForSwap`.  A receive from a closed channel is
ready, a receive from a `nil` or open channel is not. -/
def Queues.WaitForSwap (queues : Queues) (ctx : Context) : WaitResult × Queues :=
  if queues.swapQueue = none then (WaitResult.returned none, queues)
  else if queues.queueSwapped = Chan.closed ∨ ctx.Err ≠ none then
    (WaitResult.returned ctx.Err, queues)
  else (WaitResult.blocked, queues)

/-- The type `ByStreamIDAndPosition`. -/
abbrev ByStreamIDAndPosition := List Segment

/-- The method `ByStreamIDAndPosition.Len`. -/
def ByStreamIDAndPosition.Len (b : ByStreamIDAndPosition) : Nat := b.length

/-- The method `ByStreamIDAndPosition.Less`, on valid indices. -/
def ByStreamIDAndPosition.Less (b : ByStreamIDAndPosition) (i j : Fin b.length) : Bool :=
  let comparison := (b.get i).StreamID.Compare (b.get j).StreamID
  if comparison < 0 then true
  else if comparison > 0 then false
  else (b.get i).Position.Less (b.get j).Position

/-- A sample segment of stream `streamID` at position `(0, index)`. -/
def seg (streamID : UUID) (index : Nat) : Segment := ⟨streamID, ⟨0, index⟩⟩

/-- The batch `A` of the scenarios. -/
def batchA : List Segment := [seg 1 0, seg 1 1]

/-- The batch `B` of the scenarios. -/
def batchB : List Segment := [seg 2 0]

/-- The states of a `Queues` built by `NewQueues` and changed by `Push` and
`Fetch` only (a `Fetch` that returns). -/
inductive Queues.Reachable : Queues → Prop where
  | new : Queues.Reachable NewQueues
  | push (queues : Queues) (pendingQueue : List Segment) :
      Queues.Reachable queues → Queues.Reachable (queues.Push pendingQueue).2
  | fetch (queues : Queues) (res : Queue × Queues) :
      Queues.Reachable queues → queues.Fetch = some res → Queues.Reachable res.2

/-- A registered deferred swap comes with the channel its `Push` made, which
is not closed yet. -/
def Queues.SwapChannelOpen (queues : Queues) : Prop :=
  queues.swapQueue ≠ none → queues.queueSwapped = Chan.made

instance (queues : Queues) : Decidable queues.SwapChannelOpen := by
  unfold Queues.SwapChannelOpen; infer_instance

/-- A context that has been cancelled. -/
def cancelledContext : Context := ⟨some ⟨ErrClass.Context, "context canceled"⟩⟩

/-- The state after `push(A); push(B)` on a fresh `Queues`. -/
def pushedTwice : Queues := ((NewQueues.Push batchA).2.Push batchB).2

/-- A state with an empty active queue and a deferred swap for batch `B`. -/
def emptyWithPending : Queues :=
  { nextQueue := NewQueue [], swapQueue := some batchB, queueSwapped := Chan.made }

/-! ## Runs of a `Queues` -/

/-- A call on a `Queues`: `Push(pendingQueue)` or `Fetch()`. -/
inductive Op where
  | push (pendingQueue : List Segment)
  | fetch
deriving DecidableEq, Repr

/-- A `Queues` together with the record of a run: the batches whose `Push`
returned `nil`, and the contents of the queues `Fetch` returned, both in the
order of the calls. -/
structure Run where
  state : Queues
  accepted : List (List Segment)
  returned : List (List Segment)
deriving DecidableEq, Repr

/-- The run that has made no call on `NewQueues()`. -/
def Run.start : Run := { state := NewQueues, accepted := [], returned := [] }

/-- One call: `none` when `Fetch` panics. -/
def Run.step (r : Run) : Op → Option Run
  | Op.push pendingQueue =>
    some { state := (r.state.Push pendingQueue).2,
           accepted := if (r.state.Push pendingQueue).1 = none then r.accepted ++ [pendingQueue]
                       else r.accepted,
           returned := r.returned }
  | Op.fetch =>
    match r.state.Fetch with
    | none => none
    | some res =>
      some { state := res.2, accepted := r.accepted, returned := r.returned ++ [res.1.queue] }

/-- A sequence of calls, from a given run. -/
def Run.steps (r : Run) : List Op → Option Run
  | [] => some r
  | op :: ops =>
    match r.step op with
    | none => none
    | some r1 => r1.steps ops

/-- A sequence of calls on `NewQueues()`. -/
def run (ops : List Op) : Option Run := Run.start.steps ops

/-- The non-empty batches of a list of batches, in order. -/
def nonEmptyBatches (batches : List (List Segment)) : List (List Segment) :=
  batches.filter (fun batch => !batch.isEmpty)

/-- The batches a `Queues` holds: the active queue, then the deferred batch. -/
def Queues.held (queues : Queues) : List (List Segment) :=
  queues.nextQueue.queue :: queues.swapQueue.toList

/-- Nothing is lost and nothing is handed out twice: the non-empty accepted
batches are, in order, the non-empty returned queues followed by the
non-empty batches the `Queues` still holds. -/
def Run.Conserved (r : Run) : Prop :=
  nonEmptyBatches r.accepted = nonEmptyBatches (r.returned ++ r.state.held)

instance (r : Run) : Decidable r.Conserved := by
  unfold Run.Conserved; infer_instance

end Audit

/-! # Properties -/

namespace Metabase

/-! ## Machine integers: no wrap inside the range -/

theorem int32_eq_self (x : Int) (h : IsInt32 x) : int32 x = x := by
  unfold IsInt32 at h
  unfold int32
  omega

theorem int64_eq_self (x : Int) (h₁ : -9223372036854775808 ≤ x) (h₂ : x < 9223372036854775808) :
    int64 x = x := by
  unfold int64
  omega

/-- An `int64` accumulation of at most `2^31` values of type `int32` never wraps. -/
theorem foldl_int64_eq_sum (l : List Int) :
    ∀ (acc : Int) (k : Nat), (∀ x ∈ l, IsInt32 x) →
      -(k * 2147483648 : Int) ≤ acc → acc ≤ (k * 2147483648 : Int) →
      k + l.length ≤ 2147483648 →
      l.foldl (fun a x => int64 (a + x)) acc = acc + l.sum := by
  induction l with
  | nil => intro acc k _ _ _ _; simp
  | cons x xs ih =>
    intro acc k hx hlo hhi hk
    have hx0 : IsInt32 x := hx x (List.mem_cons_self x xs)
    unfold IsInt32 at hx0
    simp only [List.length_cons] at hk
    have hstep : int64 (acc + x) = acc + x := by
      apply int64_eq_self <;> omega
    simp only [List.foldl_cons, List.sum_cons, hstep]
    rw [ih (acc + x) (k + 1) (fun y hy => hx y (List.mem_cons_of_mem x hy))
      (by push_cast; omega) (by push_cast; omega) (by omega)]
    omega

theorem totalPlainSize_eq_sum (segments : List Segment)
    (hn : segments.length ≤ 2147483648) (hs : ∀ seg ∈ segments, IsInt32 seg.PlainSize) :
    totalPlainSize segments = (segments.map (fun seg => seg.PlainSize)).sum := by
  unfold totalPlainSize
  rw [← List.foldl_map (fun seg : Segment => seg.PlainSize) (fun a x => int64 (a + x))]
  rw [foldl_int64_eq_sum _ 0 0 (by simpa using hs) (by simp) (by simp) (by simpa using hn)]
  simp

theorem totalEncryptedSize_eq_sum (segments : List Segment)
    (hn : segments.length ≤ 2147483648) (hs : ∀ seg ∈ segments, IsInt32 seg.EncryptedSize) :
    totalEncryptedSize segments = (segments.map (fun seg => seg.EncryptedSize)).sum := by
  unfold totalEncryptedSize
  rw [← List.foldl_map (fun seg : Segment => seg.EncryptedSize) (fun a x => int64 (a + x))]
  rw [foldl_int64_eq_sum _ 0 0 (by simpa using hs) (by simp) (by simp) (by simpa using hn)]
  simp

/-! ## The segment query -/

theorem querySegments_length (db : DB) (streamID : UUID) :
    (db.querySegments streamID).length = (db.segmentsOf streamID).length := by
  simp [DB.querySegments, List.length_insertionSort]

theorem querySegments_plain (db : DB) (streamID : UUID) :
    ((db.querySegments streamID).map (fun seg => seg.PlainSize)).sum
      = ((db.segmentsOf streamID).map (fun r => r.PlainSize)).sum := by
  unfold DB.querySegments
  rw [List.map_map]
  exact ((List.perm_insertionSort _ _).map _).sum_eq

theorem querySegments_encrypted (db : DB) (streamID : UUID) :
    ((db.querySegments streamID).map (fun seg => seg.EncryptedSize)).sum
      = ((db.segmentsOf streamID).map (fun r => r.EncryptedSize)).sum := by
  unfold DB.querySegments
  rw [List.map_map]
  exact ((List.perm_insertionSort _ _).map _).sum_eq

theorem querySegments_mem (db : DB) (streamID : UUID) (seg : Segment)
    (h : seg ∈ db.querySegments streamID) :
    ∃ r ∈ db.segmentsOf streamID, seg.PlainSize = r.PlainSize ∧
      seg.EncryptedSize = r.EncryptedSize := by
  unfold DB.querySegments at h
  rw [List.mem_map] at h
  obtain ⟨r, hr, rfl⟩ := h
  exact ⟨r, (List.mem_insertionSort _).1 hr, rfl, rfl⟩

/-- The aggregates `CommitObject` computes are the plain sums and the count as
long as the stream has fewer than `2^31` segments of `int32` sizes. -/
theorem aggregates_exact (db : DB) (streamID : UUID)
    (hn : (db.segmentsOf streamID).length < 2147483648)
    (hs : ∀ r ∈ db.segmentsOf streamID, IsInt32 r.PlainSize ∧ IsInt32 r.EncryptedSize) :
    totalPlainSize (db.querySegments streamID)
        = ((db.segmentsOf streamID).map (fun r => r.PlainSize)).sum ∧
    totalEncryptedSize (db.querySegments streamID)
        = ((db.segmentsOf streamID).map (fun r => r.EncryptedSize)).sum ∧
    int32 ((db.querySegments streamID).length : Int) = ((db.segmentsOf streamID).length : Int) := by
  have hlen := querySegments_length db streamID
  refine ⟨?_, ?_, ?_⟩
  · rw [totalPlainSize_eq_sum, querySegments_plain]
    · omega
    · intro seg hseg
      obtain ⟨r, hr, h1, _⟩ := querySegments_mem db streamID seg hseg
      rw [h1]; exact (hs r hr).1
  · rw [totalEncryptedSize_eq_sum, querySegments_encrypted]
    · omega
    · intro seg hseg
      obtain ⟨r, hr, _, h2⟩ := querySegments_mem db streamID seg hseg
      rw [h2]; exact (hs r hr).2
  · rw [hlen]
    apply int32_eq_self
    unfold IsInt32
    omega

/-! ## `CommitObject`: the two outcomes -/

theorem hasPending_eq_false_iff (db : DB) (o : ObjectStream) :
    db.hasPending o = false ↔
      db.objects.find? (fun r => r.matchesStream o ObjectStatus.Pending) = none := by
  unfold DB.hasPending
  rw [List.any_eq_false, List.find?_eq_none]

theorem hasPending_find (db : DB) (o : ObjectStream) (h : db.hasPending o = true) :
    ∃ row, db.objects.find? (fun r => r.matchesStream o ObjectStatus.Pending) = some row := by
  cases hf : db.objects.find? (fun r => r.matchesStream o ObjectStatus.Pending) with
  | none => rw [(hasPending_eq_false_iff db o).2 hf] at h; exact absurd h (by simp)
  | some row => exact ⟨row, rfl⟩

theorem commitObject_missing (db : DB) (d : Deps) (opts : CommitObject)
    (hv : d.verifyObjectStream opts.toObjectStream = none)
    (hp : db.hasPending opts.toObjectStream = false) :
    db.CommitObject d opts =
      ((Object.zero, some (ErrObjectNotFound.Wrap
        (Error.New "object with specified version and pending status is missing"))), db) := by
  unfold DB.CommitObject
  rw [hv]
  simp only [(hasPending_eq_false_iff db opts.toObjectStream).1 hp]

theorem commitObject_found (db : DB) (d : Deps) (opts : CommitObject) (row : ObjectRow)
    (hv : d.verifyObjectStream opts.toObjectStream = none)
    (hf : db.objects.find? (fun r => r.matchesStream opts.toObjectStream ObjectStatus.Pending)
      = some row) :
    db.CommitObject d opts =
      (({ ProjectID := opts.ProjectID, BucketName := opts.BucketName, ObjectKey := opts.ObjectKey,
          Version := opts.Version, StreamID := opts.StreamID,
          CreatedAt := row.CreatedAt, ExpiresAt := row.ExpiresAt,
          Status := ObjectStatus.Committed,
          SegmentCount := int32 (db.querySegments opts.StreamID).length,
          EncryptedMetadataNonce := opts.EncryptedMetadataNonce,
          EncryptedMetadata := opts.EncryptedMetadata,
          EncryptedMetadataEncryptedKey := opts.EncryptedMetadataEncryptedKey,
          TotalPlainSize := totalPlainSize (db.querySegments opts.StreamID),
          TotalEncryptedSize := totalEncryptedSize (db.querySegments opts.StreamID),
          FixedSegmentSize := fixedSegmentSize (db.querySegments opts.StreamID),
          Encryption := row.Encryption }, none),
        { db with objects := db.objects.map (fun r =>
            if r.matchesStream opts.toObjectStream ObjectStatus.Pending
            then r.commit opts (db.querySegments opts.StreamID) else r) }) := by
  unfold DB.CommitObject
  rw [hv]
  simp only [hf]

/-- The rows of the store after a successful `CommitObject`, one by one: a row
the `WHERE` clause selects is rewritten by the `SET` clause, any other row is
kept. -/
theorem commitObject_rows (db : DB) (opts : CommitObject) (segments : List Segment) :
    List.Forall₂
      (fun r r1 => if r.matchesStream opts.toObjectStream ObjectStatus.Pending
        then r1 = r.commit opts segments else r1 = r)
      db.objects
      (db.objects.map (fun r =>
        if r.matchesStream opts.toObjectStream ObjectStatus.Pending
        then r.commit opts segments else r)) := by
  rw [List.forall₂_map_right_iff, List.forall₂_same]
  intro r _
  split <;> simp_all

theorem fullStreamSegments_filter (n : Nat) :
    (fullStreamSegments n).filter (fun r => decide (r.StreamID = 9)) = fullStreamSegments n := by
  rw [List.filter_eq_self]
  intro a ha
  unfold fullStreamSegments at ha
  rw [List.mem_map] at ha
  obtain ⟨i, _, rfl⟩ := ha
  simp [sampleSegment]

theorem fullStreamSegments_length (n : Nat) : (fullStreamSegments n).length = n := by
  unfold fullStreamSegments
  rw [List.length_map, List.length_range]

theorem fullStreamDB_segmentsOf_length :
    (fullStreamDB.segmentsOf 9).length = 2147483648 := by
  have hsegs : fullStreamDB.segments = fullStreamSegments 2147483648 := rfl
  unfold DB.segmentsOf
  rw [hsegs, fullStreamSegments_filter, fullStreamSegments_length]

/-- Claim C1, as amended.  For a request whose object stream passes `Verify`
and addresses a Pending object, in a store where the stream has fewer than
`2^31` segments with `int32` sizes, `CommitObject` succeeds; the returned
`Object` has `TotalPlainSize` = Σ `PlainSize`, `TotalEncryptedSize` =
Σ `EncryptedSize` and `SegmentCount` = the number of segments stored under
`opts.StreamID`; every addressed Pending row is stored Committed with the same
three aggregates, every other row and the segments table are unchanged. -/
theorem commitObject_aggregates (db : DB) (d : Deps) (opts : CommitObject)
    (hv : d.verifyObjectStream opts.toObjectStream = none)
    (hp : db.hasPending opts.toObjectStream = true)
    (hn : (db.segmentsOf opts.StreamID).length < 2147483648)
    (hs : ∀ r ∈ db.segmentsOf opts.StreamID, IsInt32 r.PlainSize ∧ IsInt32 r.EncryptedSize) :
    (db.CommitObject d opts).1.2 = none ∧
    (db.CommitObject d opts).1.1.TotalPlainSize
      = ((db.segmentsOf opts.StreamID).map (fun r => r.PlainSize)).sum ∧
    (db.CommitObject d opts).1.1.TotalEncryptedSize
      = ((db.segmentsOf opts.StreamID).map (fun r => r.EncryptedSize)).sum ∧
    (db.CommitObject d opts).1.1.SegmentCount = (db.segmentsOf opts.StreamID).length ∧
    List.Forall₂
      (fun r r1 => if r.matchesStream opts.toObjectStream ObjectStatus.Pending
        then r1.Status = ObjectStatus.Committed ∧
          r1.TotalPlainSize = ((db.segmentsOf opts.StreamID).map (fun r => r.PlainSize)).sum ∧
          r1.TotalEncryptedSize
            = ((db.segmentsOf opts.StreamID).map (fun r => r.EncryptedSize)).sum ∧
          r1.SegmentCount = (db.segmentsOf opts.StreamID).length
        else r1 = r)
      db.objects (db.CommitObject d opts).2.objects ∧
    (db.CommitObject d opts).2.segments = db.segments := by
  obtain ⟨row, hf⟩ := hasPending_find db opts.toObjectStream hp
  obtain ⟨h1, h2, h3⟩ := aggregates_exact db opts.StreamID hn hs
  rw [commitObject_found db d opts row hv hf]
  refine ⟨rfl, h1, h2, h3, ?_, rfl⟩
  refine List.Forall₂.imp ?_ (commitObject_rows db opts (db.querySegments opts.StreamID))
  intro r r1 h
  by_cases hm : r.matchesStream opts.toObjectStream ObjectStatus.Pending = true
  · simp only [hm, if_true] at h ⊢
    subst h
    refine ⟨rfl, h1, h2, ?_⟩
    show (((db.querySegments opts.StreamID).length : Nat) : Int) = _
    rw [querySegments_length]
  · simp only [hm] at h ⊢
    exact h

/-- Claim C1 at the scenario of the spec: plain sizes `[100, 100, 50]` and
encrypted sizes `[256, 256, 128]` give `250`, `640` and `3`. -/
theorem commitObject_aggregates_witness :
    (scenarioDB.CommitObject sampleDeps sampleCommit).1.2 = none ∧
    (scenarioDB.CommitObject sampleDeps sampleCommit).1.1.TotalPlainSize = 250 ∧
    (scenarioDB.CommitObject sampleDeps sampleCommit).1.1.TotalEncryptedSize = 640 ∧
    (scenarioDB.CommitObject sampleDeps sampleCommit).1.1.SegmentCount = 3 := by
  have h := commitObject_aggregates scenarioDB sampleDeps sampleCommit rfl (by decide)
    (by decide) (by decide)
  refine ⟨h.1, ?_, ?_, ?_⟩
  · rw [h.2.1]; decide
  · rw [h.2.2.1]; decide
  · rw [h.2.2.2.1]; decide

/-- Claim C1 as stated fails: in a store whose addressed object is Pending and
whose stream holds `2^31` segments, `CommitObject` succeeds and returns
`SegmentCount = -2147483648`, which is not the number of segments. -/
theorem commitObject_segmentCount_wraps :
    fullStreamDB.hasPending sampleCommit.toObjectStream = true ∧
    (fullStreamDB.CommitObject sampleDeps sampleCommit).1.2 = none ∧
    (fullStreamDB.CommitObject sampleDeps sampleCommit).1.1.SegmentCount = -2147483648 ∧
    ((fullStreamDB.segmentsOf sampleCommit.StreamID).length : Int) = 2147483648 ∧
    (fullStreamDB.CommitObject sampleDeps sampleCommit).1.1.SegmentCount
      ≠ (fullStreamDB.segmentsOf sampleCommit.StreamID).length := by
  have hp : fullStreamDB.hasPending sampleCommit.toObjectStream = true := by decide
  obtain ⟨row, hf⟩ := hasPending_find fullStreamDB sampleCommit.toObjectStream hp
  have hlen : (fullStreamDB.segmentsOf sampleCommit.StreamID).length = 2147483648 :=
    fullStreamDB_segmentsOf_length
  have hq := querySegments_length fullStreamDB sampleCommit.StreamID
  rw [hlen] at hq
  have hres := commitObject_found fullStreamDB sampleDeps sampleCommit row rfl hf
  have hcount : (fullStreamDB.CommitObject sampleDeps sampleCommit).1.1.SegmentCount
      = -2147483648 := by
    rw [hres]
    show int32 ((fullStreamDB.querySegments sampleCommit.StreamID).length : Int) = _
    rw [hq]
    decide
  have herr : (fullStreamDB.CommitObject sampleDeps sampleCommit).1.2 = none := by
    rw [hres]
  refine ⟨hp, herr, hcount, ?_, ?_⟩
  · rw [hlen]; norm_num
  · rw [hcount, hlen]; norm_num

/-! ## `CommitObject`: the fixed segment size -/

theorem fixedSegmentSizeLoop_eq (s : Int) (l : List Segment) :
    fixedSegmentSizeLoop s l = if ∀ seg ∈ l, seg.EncryptedSize = s then s else -1 := by
  induction l with
  | nil => simp [fixedSegmentSizeLoop]
  | cons x xs ih =>
    unfold fixedSegmentSizeLoop
    by_cases hx : x.EncryptedSize = s
    · simp only [hx, ne_eq, not_true_eq_false, if_false, ih, List.mem_cons, forall_eq_or_imp,
        true_and]
    · simp [hx]

theorem fixedSegmentSize_cons (first : Segment) (rest : List Segment) :
    fixedSegmentSize (first :: rest) =
      if ∀ seg ∈ (first :: rest).dropLast, seg.EncryptedSize = first.EncryptedSize
      then first.EncryptedSize else -1 := by
  unfold fixedSegmentSize
  exact fixedSegmentSizeLoop_eq _ _

/-- The slice `segments` of `CommitObject` is in `Position` order. -/
theorem querySegments_sorted (db : DB) (streamID : UUID) :
    (db.querySegments streamID).Pairwise (fun a b => a.Position.le b.Position) := by
  unfold DB.querySegments
  rw [List.pairwise_map]
  exact List.sorted_insertionSort (fun a b : SegmentRow => a.Position.le b.Position) _

/-- Claim C2.  `CommitObject` writes, to the returned `Object` and to every row
it commits, `fixedSegmentSize` of the stream's segments in `Position` order;
and for every list of segments that value is `0` on the empty list and
otherwise, with `s` the `EncryptedSize` of the first segment, `s` when every
segment but the last has `EncryptedSize = s` and `-1` if not.  Hence for a
list of at least two segments with positive `EncryptedSize` the value is `-1`
or `s`, and it is `s` exactly when every non-final segment has size `s`. -/
theorem commitObject_fixedSegmentSize (db : DB) (d : Deps) (opts : CommitObject)
    (hv : d.verifyObjectStream opts.toObjectStream = none)
    (hp : db.hasPending opts.toObjectStream = true) (segments : List Segment) :
    ((db.querySegments opts.StreamID).Pairwise (fun a b => a.Position.le b.Position) ∧
      (db.CommitObject d opts).1.1.FixedSegmentSize
        = fixedSegmentSize (db.querySegments opts.StreamID) ∧
      List.Forall₂
        (fun r r1 => if r.matchesStream opts.toObjectStream ObjectStatus.Pending
          then r1.FixedSegmentSize = fixedSegmentSize (db.querySegments opts.StreamID)
          else r1 = r)
        db.objects (db.CommitObject d opts).2.objects) ∧
    (segments = [] → fixedSegmentSize segments = 0) ∧
    (∀ first rest, segments = first :: rest →
      ((∀ seg ∈ segments.dropLast, seg.EncryptedSize = first.EncryptedSize) →
        fixedSegmentSize segments = first.EncryptedSize) ∧
      (¬ (∀ seg ∈ segments.dropLast, seg.EncryptedSize = first.EncryptedSize) →
        fixedSegmentSize segments = -1)) ∧
    (∀ first rest, segments = first :: rest → 2 ≤ segments.length →
      (∀ seg ∈ segments, 0 < seg.EncryptedSize) →
      (fixedSegmentSize segments = -1 ∨ fixedSegmentSize segments = first.EncryptedSize) ∧
      (fixedSegmentSize segments = first.EncryptedSize ↔
        ∀ seg ∈ segments.dropLast, seg.EncryptedSize = first.EncryptedSize)) := by
  refine ⟨⟨querySegments_sorted db opts.StreamID, ?_, ?_⟩, ?_, ?_, ?_⟩
  · obtain ⟨row, hf⟩ := hasPending_find db opts.toObjectStream hp
    rw [commitObject_found db d opts row hv hf]
  · obtain ⟨row, hf⟩ := hasPending_find db opts.toObjectStream hp
    rw [commitObject_found db d opts row hv hf]
    refine List.Forall₂.imp ?_ (commitObject_rows db opts (db.querySegments opts.StreamID))
    intro r r1 h
    by_cases hm : r.matchesStream opts.toObjectStream ObjectStatus.Pending = true
    · simp only [hm, if_true] at h ⊢
      rw [h]; rfl
    · simp only [hm] at h ⊢
      exact h
  · intro h; rw [h]; rfl
  · intro first rest h
    subst h
    rw [fixedSegmentSize_cons]
    constructor
    · intro hall; rw [if_pos hall]
    · intro hall; rw [if_neg hall]
  · intro first rest h _ hpos
    subst h
    rw [fixedSegmentSize_cons]
    have hfirst : 0 < first.EncryptedSize := hpos first (List.mem_cons_self _ _)
    by_cases hall : ∀ seg ∈ (first :: rest).dropLast, seg.EncryptedSize = first.EncryptedSize
    · rw [if_pos hall]
      exact ⟨Or.inr rfl, fun _ => hall, fun _ => rfl⟩
    · rw [if_neg hall]
      refine ⟨Or.inl rfl, fun h => ?_, fun h => absurd h hall⟩
      omega

/-- Claim C2 on the scenario of the spec: encrypted sizes `[256, 256, 128]`
in position order give `FixedSegmentSize = 256`. -/
theorem commitObject_fixedSegmentSize_witness :
    (scenarioDB.CommitObject sampleDeps sampleCommit).1.1.FixedSegmentSize = 256 ∧
    fixedSegmentSize [⟨⟨0, 0⟩, 256, 0, 100⟩, ⟨⟨0, 1⟩, 300, 0, 100⟩, ⟨⟨0, 2⟩, 128, 0, 50⟩] = -1 := by
  have h := commitObject_fixedSegmentSize scenarioDB sampleDeps sampleCommit rfl (by decide)
    [⟨⟨0, 0⟩, 256, 0, 100⟩, ⟨⟨0, 1⟩, 300, 0, 100⟩, ⟨⟨0, 2⟩, 128, 0, 50⟩]
  refine ⟨?_, ?_⟩
  · rw [h.1.2.1]; decide
  · exact ((h.2.2.1 _ _ rfl).2 (by decide))

/-! ## `CommitObject`: no Pending row -/

theorem commit_not_pending (r : ObjectRow) (o : ObjectStream) (opts : CommitObject)
    (segments : List Segment) :
    (r.commit opts segments).matchesStream o ObjectStatus.Pending = false := by
  simp [ObjectRow.matchesStream, ObjectRow.commit]

/-- After the `UPDATE` of `CommitObject` no row matches its `WHERE` clause. -/
theorem hasPending_after_commit (db : DB) (opts : CommitObject) (segments : List Segment) :
    DB.hasPending
      { db with objects := db.objects.map (fun r =>
          if r.matchesStream opts.toObjectStream ObjectStatus.Pending
          then r.commit opts segments else r) } opts.toObjectStream = false := by
  unfold DB.hasPending
  rw [List.any_eq_false]
  intro x hx
  simp only [List.mem_map] at hx
  obtain ⟨r, _, rfl⟩ := hx
  by_cases hm : r.matchesStream opts.toObjectStream ObjectStatus.Pending = true
  · simp only [hm, if_true]
    rw [commit_not_pending]; simp
  · simp only [hm]
    exact hm

/-- Claim C3, as amended.  For every store and every `CommitObject` request:
when the object stream passes `Verify` and no row matches `(ProjectID,
BucketName, ObjectKey, Version, StreamID)` with status Pending, `CommitObject`
returns the zero `Object` with an error of class `ObjectNotFound` and the
store is unchanged; when the object stream fails `Verify`, it returns the
zero `Object` with the error of `Verify` and the store is unchanged; and
right after a successful `CommitObject` a second one with the same request
fails with `ObjectNotFound`, the zero `Object` and the store unchanged. -/
theorem commitObject_not_found (db : DB) (d : Deps) (opts : CommitObject) :
    (d.verifyObjectStream opts.toObjectStream = none →
      db.hasPending opts.toObjectStream = false →
      ∃ err, db.CommitObject d opts = ((Object.zero, some err), db) ∧
        err.Has ErrClass.ObjectNotFound) ∧
    (∀ verr, d.verifyObjectStream opts.toObjectStream = some verr →
      db.CommitObject d opts = ((Object.zero, some verr), db)) ∧
    ((db.CommitObject d opts).1.2 = none →
      ∃ err, (db.CommitObject d opts).2.CommitObject d opts
          = ((Object.zero, some err), (db.CommitObject d opts).2) ∧
        err.Has ErrClass.ObjectNotFound) := by
  refine ⟨?_, ?_, ?_⟩
  · intro hv hp
    exact ⟨_, commitObject_missing db d opts hv hp, by simp [Err.Has, ErrObjectNotFound.Wrap]⟩
  · intro verr hverr
    unfold DB.CommitObject
    rw [hverr]
  · intro hok
    cases hv : d.verifyObjectStream opts.toObjectStream with
    | some verr =>
      have hrun : db.CommitObject d opts = ((Object.zero, some verr), db) := by
        unfold DB.CommitObject
        rw [hv]
      rw [hrun] at hok
      exact absurd hok (by simp)
    | none =>
      cases hp : db.hasPending opts.toObjectStream with
      | false =>
        rw [commitObject_missing db d opts hv hp] at hok
        exact absurd hok (by simp)
      | true =>
        obtain ⟨row, hf⟩ := hasPending_find db opts.toObjectStream hp
        rw [commitObject_found db d opts row hv hf]
        exact ⟨_, commitObject_missing _ d opts hv (hasPending_after_commit db opts _),
          by simp [Err.Has, ErrObjectNotFound.Wrap]⟩

/-- Claim C3 on the scenario store: the first `CommitObject` succeeds, the
second returns `ObjectNotFound` with the zero `Object`; on the empty store
the request is answered with `ObjectNotFound` at once. -/
theorem commitObject_not_found_witness :
    (scenarioDB.CommitObject sampleDeps sampleCommit).1.2 = none ∧
    (∃ err, (scenarioDB.CommitObject sampleDeps sampleCommit).2.CommitObject sampleDeps sampleCommit
        = ((Object.zero, some err), (scenarioDB.CommitObject sampleDeps sampleCommit).2) ∧
      err.Has ErrClass.ObjectNotFound) ∧
    (∃ err, DB.empty.CommitObject sampleDeps sampleCommit = ((Object.zero, some err), DB.empty) ∧
      err.Has ErrClass.ObjectNotFound) :=
  ⟨by decide, (commitObject_not_found scenarioDB sampleDeps sampleCommit).2.2 (by decide),
    (commitObject_not_found DB.empty sampleDeps sampleCommit).1 rfl (by decide)⟩

/-- Claim C3 as stated fails: for a request whose object stream fails
`Verify`, on a store without a matching Pending row, `CommitObject` returns
the error of `Verify`, here of class `InvalidRequest`, not `ObjectNotFound`. -/
theorem commitObject_verify_error :
    DB.empty.hasPending commitWithoutProject.toObjectStream = false ∧
    ∃ err, DB.empty.CommitObject rejectingDeps commitWithoutProject
        = ((Object.zero, some err), DB.empty) ∧
      err.Has ErrClass.InvalidRequest ∧ ¬ err.Has ErrClass.ObjectNotFound := by
  refine ⟨by decide, ErrInvalidRequest.New "ProjectID missing", by decide, by decide, by decide⟩

/-! ## What each operation does to the two tables -/

theorem insertObject_eq (db : DB) (o : ObjectStream) (row : ObjectRow) (db1 : DB)
    (h : db.insertObject o row = some db1) :
    db.objectKeyTaken o row.Version = false ∧ db1 = { db with objects := db.objects ++ [row] } := by
  unfold DB.insertObject at h
  split at h
  · exact absurd h (by simp)
  · rename_i hk
    simp only [Option.some.injEq] at h
    exact ⟨by simpa using hk, h.symm⟩

theorem insertSegment_eq (db : DB) (row : SegmentRow) (db1 : DB)
    (h : db.insertSegment row = some db1) :
    db.segmentKeyTaken row.StreamID row.Position = false ∧
      db1 = { db with segments := db.segments ++ [row] } := by
  unfold DB.insertSegment at h
  split at h
  · exact absurd h (by simp)
  · rename_i hk
    simp only [Option.some.injEq] at h
    exact ⟨by simpa using hk, h.symm⟩

/-- `BeginObjectNextVersion` keeps the store or appends one Pending row. -/
theorem beginObjectNextVersion_store (db : DB) (d : Deps) (opts : BeginObjectNextVersion) :
    (db.BeginObjectNextVersion d opts).2 = db ∨
    ∃ row : ObjectRow, row.Status = ObjectStatus.Pending ∧
      (db.BeginObjectNextVersion d opts).2 = { db with objects := db.objects ++ [row] } := by
  unfold DB.BeginObjectNextVersion
  split
  · exact Or.inl rfl
  · split
    · exact Or.inl rfl
    · split
      · exact Or.inl rfl
      · split
        · exact Or.inl rfl
        · split
          · exact Or.inl rfl
          · split
            · exact Or.inl rfl
            · rename_i db1 hins
              exact Or.inr ⟨_, rfl, (insertObject_eq _ _ _ _ hins).2⟩

/-- `BeginObjectExactVersion` keeps the store or appends one Pending row. -/
theorem beginObjectExactVersion_store (db : DB) (d : Deps) (opts : BeginObjectExactVersion) :
    (db.BeginObjectExactVersion d opts).2 = db ∨
    ∃ row : ObjectRow, row.Status = ObjectStatus.Pending ∧
      (db.BeginObjectExactVersion d opts).2 = { db with objects := db.objects ++ [row] } := by
  unfold DB.BeginObjectExactVersion
  split
  · exact Or.inl rfl
  · split
    · exact Or.inl rfl
    · split
      · exact Or.inl rfl
      · split
        · exact Or.inl rfl
        · split
          · exact Or.inl rfl
          · rename_i db1 hins
            exact Or.inr ⟨_, rfl, (insertObject_eq _ _ _ _ hins).2⟩

/-- `BeginSegment` keeps the store. -/
theorem beginSegment_store (db : DB) (d : Deps) (opts : BeginSegment) :
    (db.BeginSegment d opts).2 = db := by
  unfold DB.BeginSegment
  split
  · rfl
  · split
    · rfl
    · split
      · rfl
      · split <;> rfl

/-- `CommitSegment` keeps the store or, the addressed object being Pending,
appends its row to the segments. -/
theorem commitSegment_store (db : DB) (d : Deps) (opts : CommitSegment) :
    (db.CommitSegment d opts).2 = db ∨
    (db.hasPending opts.toObjectStream = true ∧
      db.segmentKeyTaken opts.StreamID opts.Position = false ∧
      (db.CommitSegment d opts).2 = { db with segments := db.segments ++ [opts.row] }) := by
  unfold DB.CommitSegment
  split
  · exact Or.inl rfl
  · split
    · exact Or.inl rfl
    · split
      · exact Or.inl rfl
      · split
        · exact Or.inl rfl
        · rename_i hp
          split
          · exact Or.inl rfl
          · rename_i db1 hins
            exact Or.inr ⟨by simpa using hp, (insertSegment_eq _ _ _ hins).1,
              (insertSegment_eq _ _ _ hins).2⟩

/-- `CommitInlineSegment` keeps the store or, the addressed object being
Pending, appends its row to the segments. -/
theorem commitInlineSegment_store (db : DB) (d : Deps) (opts : CommitInlineSegment) :
    (db.CommitInlineSegment d opts).2 = db ∨
    (db.hasPending opts.toObjectStream = true ∧
      db.segmentKeyTaken opts.StreamID opts.Position = false ∧
      (db.CommitInlineSegment d opts).2 = { db with segments := db.segments ++ [opts.row] }) := by
  unfold DB.CommitInlineSegment
  split
  · exact Or.inl rfl
  · split
    · exact Or.inl rfl
    · split
      · exact Or.inl rfl
      · rename_i hp
        split
        · exact Or.inl rfl
        · rename_i db1 hins
          exact Or.inr ⟨by simpa using hp, (insertSegment_eq _ _ _ hins).1,
            (insertSegment_eq _ _ _ hins).2⟩

/-- `CommitObject` keeps the store or rewrites the rows its `WHERE` clause selects. -/
theorem commitObject_store (db : DB) (d : Deps) (opts : CommitObject) :
    (db.CommitObject d opts).2 = db ∨
    (db.CommitObject d opts).2 = { db with objects := db.objects.map (fun r =>
      if r.matchesStream opts.toObjectStream ObjectStatus.Pending
      then r.commit opts (db.querySegments opts.StreamID) else r) } := by
  unfold DB.CommitObject
  split
  · exact Or.inl rfl
  · simp only
    split
    · exact Or.inl rfl
    · exact Or.inr rfl

/-- `UpdateObjectMetadata` keeps the store or rewrites the metadata of the
rows its `WHERE` clause selects. -/
theorem updateObjectMetadata_store (db : DB) (d : Deps) (opts : UpdateObjectMetadata) :
    (db.UpdateObjectMetadata d opts).2 = db ∨
    (db.UpdateObjectMetadata d opts).2 = { db with objects := db.objects.map (fun r =>
      if r.matchesStream opts.toObjectStream ObjectStatus.Committed
      then r.setMetadata opts else r) } := by
  unfold DB.UpdateObjectMetadata
  split
  · exact Or.inl rfl
  · split
    · exact Or.inl rfl
    · simp only
      split <;> exact Or.inr rfl

/-! ## The aggregates of committed objects -/

theorem segmentsOf_append_other (db : DB) (row : SegmentRow) (streamID : UUID)
    (h : row.StreamID ≠ streamID) :
    DB.segmentsOf { db with segments := db.segments ++ [row] } streamID
      = db.segmentsOf streamID := by
  simp [DB.segmentsOf, List.filter_append, h]

theorem querySegments_append_other (db : DB) (row : SegmentRow) (streamID : UUID)
    (h : row.StreamID ≠ streamID) :
    DB.querySegments { db with segments := db.segments ++ [row] } streamID
      = db.querySegments streamID := by
  unfold DB.querySegments
  rw [segmentsOf_append_other db row streamID h]

/-- With distinct stream ids, a Committed row and a Pending row of the same
store have different streams. -/
theorem committed_stream_ne_pending (db : DB) (hd : db.DistinctStreams) (o : ObjectRow)
    (ho : o ∈ db.objects) (hc : o.Status = ObjectStatus.Committed) (s : ObjectStream)
    (hp : db.hasPending s = true) : o.StreamID ≠ s.StreamID := by
  unfold DB.hasPending at hp
  rw [List.any_eq_true] at hp
  obtain ⟨p, hpm, hmatch⟩ := hp
  simp only [ObjectRow.matchesStream, decide_eq_true_eq] at hmatch
  intro heq
  have hsame : o = p :=
    List.inj_on_of_nodup_map hd ho hpm (by rw [heq, hmatch.2.2.2.2.1])
  rw [hsame, hmatch.2.2.2.2.2] at hc
  exact absurd hc (by decide)

/-- The invariant behind claim C4: as long as stream ids are distinct, every
Committed row carries the aggregates `CommitObject` computes from the segments
now stored under its stream. -/
theorem reachable_aggregates (db : DB) (hr : Reachable db) :
    db.DistinctStreams →
      ∀ o ∈ db.objects, o.Status = ObjectStatus.Committed → db.AggregatesComputed o := by
  induction hr with
  | empty => intro _ o ho; simp [DB.empty] at ho
  | beginObjectNextVersion db d opts _ ih =>
    rcases beginObjectNextVersion_store db d opts with h | ⟨row, hrow, h⟩
    · rw [h]; exact ih
    · rw [h]
      intro hd o ho hc
      have hd0 : db.DistinctStreams := by
        unfold DB.DistinctStreams at hd ⊢
        simp only [List.map_append] at hd
        exact hd.of_append_left
      simp only [List.mem_append, List.mem_singleton] at ho
      rcases ho with ho | ho
      · exact ih hd0 o ho hc
      · rw [ho, hrow] at hc; exact absurd hc (by decide)
  | beginObjectExactVersion db d opts _ ih =>
    rcases beginObjectExactVersion_store db d opts with h | ⟨row, hrow, h⟩
    · rw [h]; exact ih
    · rw [h]
      intro hd o ho hc
      have hd0 : db.DistinctStreams := by
        unfold DB.DistinctStreams at hd ⊢
        simp only [List.map_append] at hd
        exact hd.of_append_left
      simp only [List.mem_append, List.mem_singleton] at ho
      rcases ho with ho | ho
      · exact ih hd0 o ho hc
      · rw [ho, hrow] at hc; exact absurd hc (by decide)
  | beginSegment db d opts _ ih => rw [beginSegment_store]; exact ih
  | commitSegment db d opts _ ih =>
    rcases commitSegment_store db d opts with h | ⟨hp, _, h⟩
    · rw [h]; exact ih
    · rw [h]
      intro hd o ho hc
      have hne : opts.row.StreamID ≠ o.StreamID :=
        fun heq => committed_stream_ne_pending db hd o ho hc opts.toObjectStream hp heq.symm
      unfold DB.AggregatesComputed
      rw [querySegments_append_other db opts.row o.StreamID hne]
      exact ih hd o ho hc
  | commitInlineSegment db d opts _ ih =>
    rcases commitInlineSegment_store db d opts with h | ⟨hp, _, h⟩
    · rw [h]; exact ih
    · rw [h]
      intro hd o ho hc
      have hne : opts.row.StreamID ≠ o.StreamID :=
        fun heq => committed_stream_ne_pending db hd o ho hc opts.toObjectStream hp heq.symm
      unfold DB.AggregatesComputed
      rw [querySegments_append_other db opts.row o.StreamID hne]
      exact ih hd o ho hc
  | commitObject db d opts _ ih =>
    rcases commitObject_store db d opts with h | h
    · rw [h]; exact ih
    · rw [h]
      intro hd o ho hc
      have hd0 : db.DistinctStreams := by
        unfold DB.DistinctStreams at hd ⊢
        simp only [List.map_map] at hd
        have hfun : db.objects.map ((fun r : ObjectRow => r.StreamID) ∘ (fun r =>
            if r.matchesStream opts.toObjectStream ObjectStatus.Pending
            then r.commit opts (db.querySegments opts.StreamID) else r))
            = db.objects.map (fun r => r.StreamID) := by
          apply List.map_congr_left
          intro r _
          simp only [Function.comp]
          split <;> rfl
        rw [hfun] at hd
        exact hd
      simp only [List.mem_map] at ho
      obtain ⟨r, hr, rfl⟩ := ho
      by_cases hm : r.matchesStream opts.toObjectStream ObjectStatus.Pending = true
      · simp only [hm, if_true] at hc ⊢
        have hs : r.StreamID = opts.StreamID := by
          simp only [ObjectRow.matchesStream, decide_eq_true_eq] at hm
          exact hm.2.2.2.2.1
        show (r.commit opts _).SegmentCount = ((DB.querySegments _ r.StreamID).length : Int) ∧
          (r.commit opts _).TotalPlainSize = totalPlainSize (DB.querySegments _ r.StreamID) ∧
          (r.commit opts _).TotalEncryptedSize
            = totalEncryptedSize (DB.querySegments _ r.StreamID)
        rw [hs]
        exact ⟨rfl, rfl, rfl⟩
      · simp only [hm] at hc ⊢
        exact ih hd0 r hr hc
  | updateObjectMetadata db d opts _ ih =>
    rcases updateObjectMetadata_store db d opts with h | h
    · rw [h]; exact ih
    · rw [h]
      intro hd o ho hc
      have hd0 : db.DistinctStreams := by
        unfold DB.DistinctStreams at hd ⊢
        simp only [List.map_map] at hd
        have hfun : db.objects.map ((fun r : ObjectRow => r.StreamID) ∘ (fun r =>
            if r.matchesStream opts.toObjectStream ObjectStatus.Committed
            then r.setMetadata opts else r))
            = db.objects.map (fun r => r.StreamID) := by
          apply List.map_congr_left
          intro r _
          simp only [Function.comp]
          split <;> rfl
        rw [hfun] at hd
        exact hd
      simp only [List.mem_map] at ho
      obtain ⟨r, hr, rfl⟩ := ho
      by_cases hm : r.matchesStream opts.toObjectStream ObjectStatus.Committed = true
      · simp only [hm, if_true] at hc ⊢
        exact ih hd0 r hr hc
      · simp only [hm] at hc ⊢
        exact ih hd0 r hr hc

/-- Claim C4, as amended.  In every store state reachable from the empty store
by the seven operations in which no two objects share a `StreamID`, every
Committed object has `SegmentCount` equal to the number of segments stored
under its `StreamID`, and, when these are fewer than `2^31` with `int32`
sizes, `TotalPlainSize` and `TotalEncryptedSize` equal to the sums of their
`PlainSize` and `EncryptedSize`. -/
theorem committed_aggregates (db : DB) (hr : Reachable db) (hd : db.DistinctStreams)
    (o : ObjectRow) (ho : o ∈ db.objects) (hc : o.Status = ObjectStatus.Committed) :
    o.SegmentCount = (db.segmentsOf o.StreamID).length ∧
    ((db.segmentsOf o.StreamID).length < 2147483648 →
      (∀ r ∈ db.segmentsOf o.StreamID, IsInt32 r.PlainSize ∧ IsInt32 r.EncryptedSize) →
      o.TotalPlainSize = ((db.segmentsOf o.StreamID).map (fun r => r.PlainSize)).sum ∧
      o.TotalEncryptedSize = ((db.segmentsOf o.StreamID).map (fun r => r.EncryptedSize)).sum) := by
  obtain ⟨h1, h2, h3⟩ := reachable_aggregates db hr hd o ho hc
  constructor
  · rw [h1, querySegments_length]
  · intro hn hs
    obtain ⟨e1, e2, _⟩ := aggregates_exact db o.StreamID hn hs
    exact ⟨h2.trans e1, h3.trans e2⟩

/-- Claim C4 on a run: begin object `a`, commit segments of plain sizes
`[100, 50]` and encrypted sizes `[256, 128]`, commit the object; the stored
row has `SegmentCount = 2`, `TotalPlainSize = 150`, `TotalEncryptedSize = 384`. -/
theorem committed_aggregates_witness :
    committedRow ∈ committedDB.objects ∧ committedRow.SegmentCount = 2 ∧
    committedRow.TotalPlainSize = 150 ∧ committedRow.TotalEncryptedSize = 384 := by
  have hmem : committedRow ∈ committedDB.objects := by decide
  have h := committed_aggregates committedDB
    (Reachable.commitObject _ _ _ (Reachable.commitSegment _ _ _
      (Reachable.commitSegment _ _ _ (Reachable.beginObjectExactVersion _ _ _ Reachable.empty))))
    (by decide) committedRow hmem (by decide)
  have h2 := h.2 (by decide) (by decide)
  refine ⟨hmem, ?_, ?_, ?_⟩
  · rw [h.1]; decide
  · rw [h2.1]; decide
  · rw [h2.2]; decide

/-- Claim C4 as stated fails: two objects begun with one `StreamID`, the first
committed without segments, then a segment committed through the second; the
state is reachable and the Committed object has `SegmentCount = 0` while one
segment is stored under its `StreamID`. -/
theorem shared_stream_breaks_aggregates :
    Reachable sharedStreamDB ∧
    ∃ o ∈ sharedStreamDB.objects, o.Status = ObjectStatus.Committed ∧
      o.SegmentCount = 0 ∧ o.TotalPlainSize = 0 ∧
      (sharedStreamDB.segmentsOf o.StreamID).length = 1 ∧
      ((sharedStreamDB.segmentsOf o.StreamID).map (fun r => r.PlainSize)).sum = 100 := by
  refine ⟨Reachable.commitSegment _ _ _ (Reachable.commitObject _ _ _
    (Reachable.beginObjectExactVersion _ _ _
      (Reachable.beginObjectExactVersion _ _ _ Reachable.empty))), ?_⟩
  decide

/-! ## `CommitSegment` and `CommitInlineSegment` -/

/-- `CommitSegment` once the two `Verify` calls and the argument checks pass. -/
theorem commitSegment_valid (db : DB) (d : Deps) (opts : CommitSegment)
    (hv : d.verifyObjectStream opts.toObjectStream = none)
    (hpv : d.verifyPieces opts.Pieces = none) (hc : opts.check = none) :
    db.CommitSegment d opts =
      if db.hasPending opts.toObjectStream = false then
        (some (Error.New "pending object missing"), db)
      else if db.segmentKeyTaken opts.StreamID opts.Position = true then
        (some (ErrConflict.New "segment already exists"), db)
      else (none, { db with segments := db.segments ++ [opts.row] }) := by
  unfold DB.CommitSegment
  rw [hv, hpv, hc]
  simp only
  cases hp : db.hasPending opts.toObjectStream
  · simp
  · simp only [Bool.not_true, Bool.false_eq_true, if_false]
    unfold DB.insertSegment
    cases ht : db.segmentKeyTaken opts.row.StreamID opts.row.Position
    · have ht1 : db.segmentKeyTaken opts.StreamID opts.Position = false := ht
      simp [ht1]
    · have ht1 : db.segmentKeyTaken opts.StreamID opts.Position = true := ht
      simp [ht1]

/-- `CommitInlineSegment` once `Verify` and the argument checks pass. -/
theorem commitInlineSegment_valid (db : DB) (d : Deps) (opts : CommitInlineSegment)
    (hv : d.verifyObjectStream opts.toObjectStream = none) (hc : opts.check = none) :
    db.CommitInlineSegment d opts =
      if db.hasPending opts.toObjectStream = false then
        (some (Error.New "pending object missing"), db)
      else if db.segmentKeyTaken opts.StreamID opts.Position = true then
        (some (ErrConflict.New "segment already exists"), db)
      else (none, { db with segments := db.segments ++ [opts.row] }) := by
  unfold DB.CommitInlineSegment
  rw [hv, hc]
  simp only
  cases hp : db.hasPending opts.toObjectStream
  · simp
  · simp only [Bool.not_true, Bool.false_eq_true, if_false]
    unfold DB.insertSegment
    cases ht : db.segmentKeyTaken opts.row.StreamID opts.row.Position
    · have ht1 : db.segmentKeyTaken opts.StreamID opts.Position = false := ht
      simp [ht1]
    · have ht1 : db.segmentKeyTaken opts.StreamID opts.Position = true := ht
      simp [ht1]

/-- Claim C5, as amended.  For an otherwise valid request (the `Verify` calls
and the argument checks pass) addressed to an object that is not Pending,
`CommitSegment` and `CommitInlineSegment` return the error
`Error.New("pending object missing")` of the generic metabase class, which is
of class neither `ObjectNotFound` nor `InvalidRequest`, and leave the store
unchanged. -/
theorem commitSegment_not_pending (db : DB) (d : Deps) (opts : CommitSegment)
    (iopts : CommitInlineSegment)
    (hv : d.verifyObjectStream opts.toObjectStream = none)
    (hpv : d.verifyPieces opts.Pieces = none) (hc : opts.check = none)
    (hp : db.hasPending opts.toObjectStream = false)
    (hiv : d.verifyObjectStream iopts.toObjectStream = none) (hic : iopts.check = none)
    (hip : db.hasPending iopts.toObjectStream = false) :
    db.CommitSegment d opts = (some (Error.New "pending object missing"), db) ∧
    db.CommitInlineSegment d iopts = (some (Error.New "pending object missing"), db) ∧
    (Error.New "pending object missing").classes = [ErrClass.Metabase] ∧
    ¬ (Error.New "pending object missing").Has ErrClass.ObjectNotFound ∧
    ¬ (Error.New "pending object missing").Has ErrClass.InvalidRequest := by
  refine ⟨?_, ?_, rfl, by decide, by decide⟩
  · rw [commitSegment_valid db d opts hv hpv hc, if_pos hp]
  · rw [commitInlineSegment_valid db d iopts hiv hic, if_pos hip]

/-- Claim C5 on the store of a committed upload: further segments are refused
with the generic error. -/
theorem commitSegment_not_pending_witness :
    committedDB.CommitSegment sampleDeps (sampleCommitSegment "a" 9 2 10 20)
      = (some (Error.New "pending object missing"), committedDB) ∧
    committedDB.CommitInlineSegment sampleDeps (sampleCommitInline "a" 9 2)
      = (some (Error.New "pending object missing"), committedDB) :=
  ⟨(commitSegment_not_pending committedDB sampleDeps (sampleCommitSegment "a" 9 2 10 20)
      (sampleCommitInline "a" 9 2) rfl (by decide) (by decide) (by decide) rfl (by decide)
      (by decide)).1,
   (commitSegment_not_pending committedDB sampleDeps (sampleCommitSegment "a" 9 2 10 20)
      (sampleCommitInline "a" 9 2) rfl (by decide) (by decide) (by decide) rfl (by decide)
      (by decide)).2.1⟩

/-- Claim C5 as stated fails: a valid `CommitSegment` and a valid
`CommitInlineSegment` addressed to the Committed object of `committedDB` each
return an error that is of class neither `ObjectNotFound` nor `InvalidRequest`. -/
theorem commitSegment_on_committed_error_class :
    committedDB.hasPending (sampleCommitSegment "a" 9 2 10 20).toObjectStream = false ∧
    (∃ err, (committedDB.CommitSegment sampleDeps (sampleCommitSegment "a" 9 2 10 20)).1
        = some err ∧ ¬ err.Has ErrClass.ObjectNotFound ∧ ¬ err.Has ErrClass.InvalidRequest) ∧
    (∃ err, (committedDB.CommitInlineSegment sampleDeps (sampleCommitInline "a" 9 2)).1
        = some err ∧ ¬ err.Has ErrClass.ObjectNotFound ∧ ¬ err.Has ErrClass.InvalidRequest) := by
  refine ⟨by decide, ⟨Error.New "pending object missing", by decide, by decide, by decide⟩,
    ⟨Error.New "pending object missing", by decide, by decide, by decide⟩⟩

/-- The `switch` of `CommitSegment` rejects exactly the listed arguments, each
with an `InvalidRequest` error. -/
theorem commitSegment_check_iff (opts : CommitSegment) :
    (∃ err, opts.check = some err ∧ err.Has ErrClass.InvalidRequest) ↔
      (opts.RootPieceID = 0 ∨ opts.EncryptedKey = [] ∨ opts.EncryptedKeyNonce = [] ∨
        opts.EncryptedSize ≤ 0 ∨ opts.PlainSize ≤ 0 ∨ opts.PlainOffset < 0 ∨
        opts.Redundancy = ⟨0, 0, 0, 0, 0, 0⟩) := by
  unfold CommitSegment.check
  simp only [PieceID.IsZero, RedundancyScheme.IsZero, beq_iff_eq, decide_eq_true_eq,
    List.length_eq_zero]
  constructor
  · rintro ⟨err, h, _⟩
    by_contra hcon
    simp only [not_or] at hcon
    obtain ⟨h1, h2, h3, h4, h5, h6, h7⟩ := hcon
    simp [h1, h2, h3, h4, h5, h6, h7] at h
  · intro h
    split
    · exact ⟨_, rfl, by decide⟩
    · split
      · exact ⟨_, rfl, by decide⟩
      · split
        · exact ⟨_, rfl, by decide⟩
        · split
          · exact ⟨_, rfl, by decide⟩
          · split
            · exact ⟨_, rfl, by decide⟩
            · split
              · exact ⟨_, rfl, by decide⟩
              · split
                · exact ⟨_, rfl, by decide⟩
                · simp_all

theorem commitSegment_check_none_or (opts : CommitSegment) :
    opts.check = none ∨ ∃ err, opts.check = some err ∧ err.Has ErrClass.InvalidRequest := by
  unfold CommitSegment.check
  split
  · exact Or.inr ⟨_, rfl, by decide⟩
  · split
    · exact Or.inr ⟨_, rfl, by decide⟩
    · split
      · exact Or.inr ⟨_, rfl, by decide⟩
      · split
        · exact Or.inr ⟨_, rfl, by decide⟩
        · split
          · exact Or.inr ⟨_, rfl, by decide⟩
          · split
            · exact Or.inr ⟨_, rfl, by decide⟩
            · split
              · exact Or.inr ⟨_, rfl, by decide⟩
              · exact Or.inl rfl

/-- Claim C6.  For a request whose `ObjectStream` and `Pieces` pass `Verify`,
`CommitSegment` returns an error of class `InvalidRequest` if and only if
`RootPieceID` is zero, or `EncryptedKey` is empty, or `EncryptedKeyNonce` is
empty, or `EncryptedSize <= 0`, or `PlainSize <= 0`, or `PlainOffset < 0`, or
`Redundancy` is zero; and in that case the store is unchanged and the error is
the same whatever the store holds. -/
theorem commitSegment_invalidRequest_iff (db : DB) (d : Deps) (opts : CommitSegment)
    (hv : d.verifyObjectStream opts.toObjectStream = none)
    (hpv : d.verifyPieces opts.Pieces = none) :
    ((∃ err, (db.CommitSegment d opts).1 = some err ∧ err.Has ErrClass.InvalidRequest) ↔
      (opts.RootPieceID = 0 ∨ opts.EncryptedKey = [] ∨ opts.EncryptedKeyNonce = [] ∨
        opts.EncryptedSize ≤ 0 ∨ opts.PlainSize ≤ 0 ∨ opts.PlainOffset < 0 ∨
        opts.Redundancy = ⟨0, 0, 0, 0, 0, 0⟩)) ∧
    ((opts.RootPieceID = 0 ∨ opts.EncryptedKey = [] ∨ opts.EncryptedKeyNonce = [] ∨
        opts.EncryptedSize ≤ 0 ∨ opts.PlainSize ≤ 0 ∨ opts.PlainOffset < 0 ∨
        opts.Redundancy = ⟨0, 0, 0, 0, 0, 0⟩) →
      (db.CommitSegment d opts).2 = db ∧
      ∀ other : DB, (other.CommitSegment d opts).1 = (db.CommitSegment d opts).1) := by
  rw [← commitSegment_check_iff]
  constructor
  · constructor
    · rintro ⟨err, hres, hcls⟩
      rcases commitSegment_check_none_or opts with hc | hc
      · rw [commitSegment_valid db d opts hv hpv hc] at hres
        split at hres
        · simp only [Option.some.injEq] at hres
          rw [← hres] at hcls
          exact absurd hcls (by decide)
        · split at hres
          · simp only [Option.some.injEq] at hres
            rw [← hres] at hcls
            exact absurd hcls (by decide)
          · exact absurd hres (by simp)
      · exact hc
    · rintro ⟨err, hc, hcls⟩
      refine ⟨err, ?_, hcls⟩
      unfold DB.CommitSegment
      rw [hv, hpv, hc]
  · rintro ⟨err, hc, _⟩
    have hrun : ∀ x : DB, x.CommitSegment d opts = (some err, x) := by
      intro x
      unfold DB.CommitSegment
      rw [hv, hpv, hc]
    refine ⟨by rw [hrun db], fun other => by rw [hrun other, hrun db]⟩

/-- Claim C6 on a request with `EncryptedSize = 0`: rejected as an invalid
request, on any store. -/
theorem commitSegment_invalidRequest_iff_witness :
    ∃ err, (uploadedDB.CommitSegment sampleDeps (sampleCommitSegment "a" 9 5 10 0)).1 = some err ∧
      err.Has ErrClass.InvalidRequest :=
  (commitSegment_invalidRequest_iff uploadedDB sampleDeps (sampleCommitSegment "a" 9 5 10 0)
    rfl (by decide)).1.2 (by decide)

theorem segmentKeyTaken_iff (db : DB) (streamID : UUID) (pos : SegmentPosition) :
    db.segmentKeyTaken streamID pos = true ↔
      ∃ r ∈ db.segments, r.StreamID = streamID ∧ r.Position = pos := by
  unfold DB.segmentKeyTaken
  rw [List.any_eq_true]
  simp only [decide_eq_true_eq]

theorem uniqueSegments_append (db : DB) (row : SegmentRow) (hu : db.UniqueSegments)
    (hfree : ¬ ∃ r ∈ db.segments, r.StreamID = row.StreamID ∧ r.Position = row.Position) :
    DB.UniqueSegments { db with segments := db.segments ++ [row] } := by
  unfold DB.UniqueSegments at hu ⊢
  simp only [List.map_append, List.map_cons, List.map_nil]
  rw [List.nodup_append]
  refine ⟨hu, List.nodup_singleton _, ?_⟩
  intro k hk
  simp only [List.mem_map] at hk
  obtain ⟨r, hr, rfl⟩ := hk
  simp only [List.mem_singleton, Prod.mk.injEq, not_and]
  intro hs
  exact hfree ⟨r, hr, hs⟩

/-- Claim C7.  In the store model, whose segments table enforces uniqueness of
`(stream_id, position)`, a valid `CommitSegment` or `CommitInlineSegment`
addressed to a Pending object returns `Conflict` and leaves the store
unchanged when `(StreamID, Position)` already holds a segment; at a free
position it returns no error, appends exactly one segment row carrying the
request's fields and changes nothing else.  Hence `(StreamID, Position)` stays
unique. -/
theorem commitSegment_unique (db : DB) (d : Deps) (opts : CommitSegment)
    (iopts : CommitInlineSegment)
    (hv : d.verifyObjectStream opts.toObjectStream = none)
    (hpv : d.verifyPieces opts.Pieces = none) (hc : opts.check = none)
    (hp : db.hasPending opts.toObjectStream = true)
    (hiv : d.verifyObjectStream iopts.toObjectStream = none) (hic : iopts.check = none)
    (hip : db.hasPending iopts.toObjectStream = true) :
    ((∃ r ∈ db.segments, r.StreamID = opts.StreamID ∧ r.Position = opts.Position) →
      ∃ err, db.CommitSegment d opts = (some err, db) ∧ err.Has ErrClass.Conflict) ∧
    ((¬ ∃ r ∈ db.segments, r.StreamID = opts.StreamID ∧ r.Position = opts.Position) →
      ∃ row : SegmentRow,
        db.CommitSegment d opts
          = (none, { objects := db.objects, segments := db.segments ++ [row] }) ∧
        row.StreamID = opts.StreamID ∧ row.Position = opts.Position ∧
        row.RootPieceID = opts.RootPieceID ∧ row.EncryptedKeyNonce = opts.EncryptedKeyNonce ∧
        row.EncryptedKey = opts.EncryptedKey ∧ row.EncryptedSize = opts.EncryptedSize ∧
        row.PlainOffset = opts.PlainOffset ∧ row.PlainSize = opts.PlainSize ∧
        row.Redundancy = some opts.Redundancy ∧ row.RemotePieces = some opts.Pieces) ∧
    ((∃ r ∈ db.segments, r.StreamID = iopts.StreamID ∧ r.Position = iopts.Position) →
      ∃ err, db.CommitInlineSegment d iopts = (some err, db) ∧ err.Has ErrClass.Conflict) ∧
    ((¬ ∃ r ∈ db.segments, r.StreamID = iopts.StreamID ∧ r.Position = iopts.Position) →
      ∃ row : SegmentRow,
        db.CommitInlineSegment d iopts
          = (none, { objects := db.objects, segments := db.segments ++ [row] }) ∧
        row.StreamID = iopts.StreamID ∧ row.Position = iopts.Position ∧
        row.EncryptedKeyNonce = iopts.EncryptedKeyNonce ∧
        row.EncryptedKey = iopts.EncryptedKey ∧ row.PlainOffset = iopts.PlainOffset ∧
        row.PlainSize = iopts.PlainSize ∧ row.InlineData = some iopts.InlineData) ∧
    (db.UniqueSegments →
      (db.CommitSegment d opts).2.UniqueSegments ∧
      (db.CommitInlineSegment d iopts).2.UniqueSegments) := by
  have hrun := commitSegment_valid db d opts hv hpv hc
  have hirun := commitInlineSegment_valid db d iopts hiv hic
  rw [if_neg (by rw [hp]; decide)] at hrun
  rw [if_neg (by rw [hip]; decide)] at hirun
  refine ⟨?_, ?_, ?_, ?_, ?_⟩
  · intro hex
    rw [hrun, if_pos ((segmentKeyTaken_iff _ _ _).2 hex)]
    exact ⟨_, rfl, by decide⟩
  · intro hfree
    rw [hrun, if_neg (fun h => hfree ((segmentKeyTaken_iff _ _ _).1 h))]
    exact ⟨opts.row, rfl, rfl, rfl, rfl, rfl, rfl, rfl, rfl, rfl, rfl, rfl⟩
  · intro hex
    rw [hirun, if_pos ((segmentKeyTaken_iff _ _ _).2 hex)]
    exact ⟨_, rfl, by decide⟩
  · intro hfree
    rw [hirun, if_neg (fun h => hfree ((segmentKeyTaken_iff _ _ _).1 h))]
    exact ⟨iopts.row, rfl, rfl, rfl, rfl, rfl, rfl, rfl, rfl⟩
  · intro hu
    constructor
    · rw [hrun]
      by_cases hex : ∃ r ∈ db.segments, r.StreamID = opts.StreamID ∧ r.Position = opts.Position
      · rw [if_pos ((segmentKeyTaken_iff _ _ _).2 hex)]; exact hu
      · rw [if_neg (fun h => hex ((segmentKeyTaken_iff _ _ _).1 h))]
        exact uniqueSegments_append db opts.row hu hex
    · rw [hirun]
      by_cases hex : ∃ r ∈ db.segments, r.StreamID = iopts.StreamID ∧ r.Position = iopts.Position
      · rw [if_pos ((segmentKeyTaken_iff _ _ _).2 hex)]; exact hu
      · rw [if_neg (fun h => hex ((segmentKeyTaken_iff _ _ _).1 h))]
        exact uniqueSegments_append db iopts.row hu hex

/-- Claim C7 on the store of a running upload with segments at `(0, 0)` and
`(0, 1)`: a remote segment at `(0, 1)` conflicts and changes nothing, an
inline segment at `(0, 2)` is appended. -/
theorem commitSegment_unique_witness :
    (∃ err, uploadedDB.CommitSegment sampleDeps (sampleCommitSegment "a" 9 1 10 20)
        = (some err, uploadedDB) ∧ err.Has ErrClass.Conflict) ∧
    (uploadedDB.CommitInlineSegment sampleDeps (sampleCommitInline "a" 9 2)).2.segments.length
      = 3 := by
  have h := commitSegment_unique uploadedDB sampleDeps (sampleCommitSegment "a" 9 1 10 20)
    (sampleCommitInline "a" 9 2) rfl (by decide) (by decide) (by decide) rfl (by decide)
    (by decide)
  refine ⟨h.1 (by decide), ?_⟩
  obtain ⟨row, hrow, _⟩ := h.2.2.2.1 (by decide)
  rw [hrow]
  show (uploadedDB.segments ++ [row]).length = 3
  rw [List.length_append]
  rfl

/-- Every segment row of a reachable store was written by `CommitSegment` (no
inline data) or by `CommitInlineSegment` (no remote pieces). -/
theorem reachable_segment_shape (db : DB) (hr : Reachable db) :
    ∀ r ∈ db.segments, r.RemotePieces = none ∨ r.InlineData = none := by
  induction hr with
  | empty => intro r hr; simp [DB.empty] at hr
  | beginObjectNextVersion db d opts _ ih =>
    rcases beginObjectNextVersion_store db d opts with h | ⟨row, _, h⟩ <;> rw [h] <;> exact ih
  | beginObjectExactVersion db d opts _ ih =>
    rcases beginObjectExactVersion_store db d opts with h | ⟨row, _, h⟩ <;> rw [h] <;> exact ih
  | beginSegment db d opts _ ih => rw [beginSegment_store]; exact ih
  | commitSegment db d opts _ ih =>
    rcases commitSegment_store db d opts with h | ⟨_, _, h⟩
    · rw [h]; exact ih
    · rw [h]
      intro r hr
      simp only [List.mem_append, List.mem_singleton] at hr
      rcases hr with hr | hr
      · exact ih r hr
      · rw [hr]; exact Or.inr rfl
  | commitInlineSegment db d opts _ ih =>
    rcases commitInlineSegment_store db d opts with h | ⟨_, _, h⟩
    · rw [h]; exact ih
    · rw [h]
      intro r hr
      simp only [List.mem_append, List.mem_singleton] at hr
      rcases hr with hr | hr
      · exact ih r hr
      · rw [hr]; exact Or.inl rfl
  | commitObject db d opts _ ih =>
    rcases commitObject_store db d opts with h | h <;> rw [h] <;> exact ih
  | updateObjectMetadata db d opts _ ih =>
    rcases updateObjectMetadata_store db d opts with h | h <;> rw [h] <;> exact ih

theorem commitInlineSegment_check_length (opts : CommitInlineSegment) (hc : opts.check = none) :
    0 < opts.InlineData.length := by
  unfold CommitInlineSegment.check at hc
  split at hc
  · exact absurd hc (by simp)
  · omega

/-- Claim C8.  For a valid `CommitInlineSegment` request on a Pending object at
a free position, the call succeeds and appends one segment whose
`root_piece_id` is the zero `PieceID`, whose `encrypted_size` is
`len(InlineData) > 0`, whose `inline_data` is `InlineData`, and which has no
redundancy and no remote pieces.  So no segment written by the commit
operations, in any reachable store, has both remote pieces and inline data. -/
theorem commitInlineSegment_shape (db : DB) (d : Deps) (opts : CommitInlineSegment)
    (hv : d.verifyObjectStream opts.toObjectStream = none) (hc : opts.check = none)
    (hp : db.hasPending opts.toObjectStream = true)
    (hfree : ¬ ∃ r ∈ db.segments, r.StreamID = opts.StreamID ∧ r.Position = opts.Position) :
    (∃ row : SegmentRow,
      db.CommitInlineSegment d opts
        = (none, { objects := db.objects, segments := db.segments ++ [row] }) ∧
      row.RootPieceID = 0 ∧ PieceID.IsZero row.RootPieceID = true ∧
      row.EncryptedSize = opts.InlineData.length ∧ 0 < row.EncryptedSize ∧
      row.InlineData = some opts.InlineData ∧
      row.Redundancy = none ∧ row.RemotePieces = none) ∧
    (∀ s : DB, Reachable s → ∀ r ∈ s.segments,
      ¬ (r.RemotePieces.isSome = true ∧ r.InlineData.isSome = true)) := by
  constructor
  · refine ⟨opts.row, ?_, rfl, rfl, rfl, ?_, rfl, rfl, rfl⟩
    · rw [commitInlineSegment_valid db d opts hv hc, if_neg (by rw [hp]; decide),
        if_neg (fun h => hfree ((segmentKeyTaken_iff _ _ _).1 h))]
    · show (0 : Int) < (opts.InlineData.length : Int)
      exact_mod_cast commitInlineSegment_check_length opts hc
  · intro s hs r hr hboth
    rcases reachable_segment_shape s hs r hr with h | h
    · rw [h] at hboth; exact absurd hboth.1 (by simp)
    · rw [h] at hboth; exact absurd hboth.2 (by simp)

/-- Claim C8 on the store of a running upload: an inline segment of three
bytes at the free position `(0, 2)` is stored with `encrypted_size = 3`. -/
theorem commitInlineSegment_shape_witness :
    ∃ row : SegmentRow,
      uploadedDB.CommitInlineSegment sampleDeps (sampleCommitInline "a" 9 2)
        = (none, { objects := uploadedDB.objects, segments := uploadedDB.segments ++ [row] }) ∧
      row.RootPieceID = 0 ∧ row.EncryptedSize = 3 ∧ row.InlineData = some [7, 8, 9] ∧
      row.Redundancy = none ∧ row.RemotePieces = none := by
  obtain ⟨row, h1, h2, _, h4, _, h6, h7, h8⟩ :=
    (commitInlineSegment_shape uploadedDB sampleDeps (sampleCommitInline "a" 9 2) rfl (by decide)
      (by decide) (by decide)).1
  exact ⟨row, h1, h2, h4, h6, h7, h8⟩

/-! ## `BeginObjectNextVersion`: the assigned version -/

theorem foldl_max_mem (l : List Version) : ∀ a : Version, l.foldl max a ∈ a :: l := by
  induction l with
  | nil => intro a; simp
  | cons x xs ih =>
    intro a
    simp only [List.foldl_cons]
    have h := ih (max a x)
    simp only [List.mem_cons] at h ⊢
    rcases h with h | h
    · rcases max_choice a x with hm | hm
      · left; rw [h, hm]
      · right; left; rw [h, hm]
    · right; right; exact h

theorem le_foldl_max (l : List Version) : ∀ a : Version, ∀ x ∈ a :: l, x ≤ l.foldl max a := by
  induction l with
  | nil => intro a x hx; simp at hx; simp [hx]
  | cons y ys ih =>
    intro a x hx
    simp only [List.foldl_cons]
    simp only [List.mem_cons] at hx
    rcases hx with hx | hx | hx
    · exact le_trans (by rw [hx]; exact le_max_left a y) (ih (max a y) _ (List.mem_cons_self _ _))
    · exact le_trans (by rw [hx]; exact le_max_right a y) (ih (max a y) _ (List.mem_cons_self _ _))
    · exact ih (max a y) x (List.mem_cons_of_mem _ hx)

/-- The result of `maxVersion` is the greatest element of the list. -/
theorem maxVersion_eq_some_iff (vs : List Version) (m : Version) :
    maxVersion vs = some m ↔ m ∈ vs ∧ ∀ v ∈ vs, v ≤ m := by
  cases vs with
  | nil => simp [maxVersion]
  | cons a l =>
    simp only [maxVersion, Option.some.injEq]
    constructor
    · intro h
      rw [← h]
      exact ⟨foldl_max_mem l a, le_foldl_max l a⟩
    · rintro ⟨hm, hub⟩
      exact le_antisymm (hub _ (foldl_max_mem l a)) (le_foldl_max l a m hm)

theorem maxVersion_eq_none_iff (vs : List Version) : maxVersion vs = none ↔ vs = [] := by
  cases vs <;> simp [maxVersion]

/-- The versions stored for the key of `o`. -/
theorem mem_keyVersions (db : DB) (o : ObjectStream) (v : Version) :
    v ∈ (db.objects.filter (fun r => r.hasKey o)).map (fun r => r.Version) ↔
      ∃ r ∈ db.objects, r.hasKey o = true ∧ r.Version = v := by
  simp only [List.mem_map, List.mem_filter]
  constructor
  · rintro ⟨r, ⟨h1, h2⟩, h3⟩; exact ⟨r, h1, h2, h3⟩
  · rintro ⟨r, h1, h2, h3⟩; exact ⟨r, ⟨h1, h2⟩, h3⟩

/-- The subquery of `BeginObjectNextVersion`: `1` without a row of the key,
else one more than the greatest version stored for the key, provided that
fits an `int64`. -/
theorem nextVersion_spec (db : DB) (o : ObjectStream) :
    ((∀ r ∈ db.objects, r.hasKey o = false) → db.nextVersion o = some 1) ∧
    ((∃ r ∈ db.objects, r.hasKey o = true) →
      ∃ m : Int, (∃ r ∈ db.objects, r.hasKey o = true ∧ r.Version = m) ∧
        (∀ r ∈ db.objects, r.hasKey o = true → r.Version ≤ m) ∧
        db.nextVersion o = if IsInt64 (m + 1) then some (m + 1) else none) := by
  unfold DB.nextVersion
  constructor
  · intro hnone
    have hnil : (db.objects.filter (fun r => r.hasKey o)).map (fun r => r.Version) = [] := by
      rw [List.map_eq_nil_iff, List.filter_eq_nil_iff]
      intro r hr; rw [hnone r hr]; simp
    rw [hnil]; rfl
  · rintro ⟨r, hr, hk⟩
    cases hmax : maxVersion ((db.objects.filter (fun r => r.hasKey o)).map (fun r => r.Version)) with
    | none =>
      rw [maxVersion_eq_none_iff, List.map_eq_nil_iff, List.filter_eq_nil_iff] at hmax
      exact absurd hk (hmax r hr)
    | some m =>
      rw [maxVersion_eq_some_iff] at hmax
      refine ⟨m, (mem_keyVersions db o m).1 hmax.1, ?_, rfl⟩
      intro r1 hr1 hk1
      exact hmax.2 _ ((mem_keyVersions db o _).2 ⟨r1, hr1, hk1, rfl⟩)

/-- An assigned version is above every version stored for the key. -/
theorem lt_nextVersion (db : DB) (o : ObjectStream) (v : Int) (hv : db.nextVersion o = some v)
    (r : ObjectRow) (hr : r ∈ db.objects) (hk : r.hasKey o = true) : r.Version < v := by
  obtain ⟨m, _, hub, hnext⟩ := (nextVersion_spec db o).2 ⟨r, hr, hk⟩
  rw [hv] at hnext
  split at hnext
  · simp only [Option.some.injEq] at hnext
    rw [hnext]
    exact Int.lt_add_one_iff.2 (hub r hr hk)
  · exact absurd hnext (by simp)

/-- An assigned version fits an `int64`. -/
theorem nextVersion_isInt64 (db : DB) (o : ObjectStream) (v : Int)
    (hv : db.nextVersion o = some v) : IsInt64 v := by
  by_cases hex : ∃ r ∈ db.objects, r.hasKey o = true
  · obtain ⟨m, _, _, hnext⟩ := (nextVersion_spec db o).2 hex
    rw [hv] at hnext
    split at hnext
    · rename_i hfit
      simp only [Option.some.injEq] at hnext
      rw [hnext]; exact hfit
    · exact absurd hnext (by simp)
  · have hnone : ∀ r ∈ db.objects, r.hasKey o = false := by
      intro r hr
      cases hk : r.hasKey o
      · rfl
      · exact absurd ⟨r, hr, hk⟩ hex
    rw [(nextVersion_spec db o).1 hnone] at hv
    simp only [Option.some.injEq] at hv
    rw [← hv]
    decide

/-- The key with an assigned version is free: the `INSERT` raises no unique violation. -/
theorem nextVersion_free (db : DB) (o : ObjectStream) (v : Int)
    (hv : db.nextVersion o = some v) : db.objectKeyTaken o v = false := by
  unfold DB.objectKeyTaken
  rw [List.any_eq_false]
  intro r hr
  simp only [Bool.and_eq_true, decide_eq_true_eq, not_and]
  intro hk hrv
  have hlt := lt_nextVersion db o v hv r hr hk
  rw [hrv] at hlt
  exact lt_irrefl _ hlt

/-- `BeginObjectNextVersion` on a valid request, when the version fits. -/
theorem beginObjectNextVersion_valid (db : DB) (d : Deps) (opts : BeginObjectNextVersion)
    (hv : d.verifyObjectStream opts.toObjectStream = none)
    (hz : opts.Encryption.IsZero = false) (hcs : opts.Encryption.CipherSuite ≠ EncUnspecified)
    (hbs : 0 < opts.Encryption.BlockSize) (hver : opts.Version = NextVersion)
    (v : Int) (hnv : db.nextVersion opts.toObjectStream = some v) :
    db.BeginObjectNextVersion d opts =
      ((v, none),
        { objects := db.objects ++
            [newObjectRow d opts.toObjectStream v opts.ExpiresAt opts.Encryption
              opts.ZombieDeletionDeadline],
          segments := db.segments }) := by
  unfold DB.BeginObjectNextVersion
  rw [hv]
  simp only [hz, Bool.false_or, beq_iff_eq, hcs, if_false, not_le.2 hbs, hver, ne_eq,
    not_true_eq_false, hnv]
  unfold DB.insertObject
  have hfree : db.objectKeyTaken opts.toObjectStream
      (newObjectRow d opts.toObjectStream v opts.ExpiresAt opts.Encryption
        opts.ZombieDeletionDeadline).Version = false :=
    nextVersion_free db opts.toObjectStream v hnv
  simp [hfree]

/-- `BeginObjectNextVersion` on a valid request, when the version does not
fit an `int64`: the statement fails. -/
theorem beginObjectNextVersion_overflow (db : DB) (d : Deps) (opts : BeginObjectNextVersion)
    (hv : d.verifyObjectStream opts.toObjectStream = none)
    (hz : opts.Encryption.IsZero = false) (hcs : opts.Encryption.CipherSuite ≠ EncUnspecified)
    (hbs : 0 < opts.Encryption.BlockSize) (hver : opts.Version = NextVersion)
    (hnv : db.nextVersion opts.toObjectStream = none) :
    db.BeginObjectNextVersion d opts = ((-1, some (Error.New "unable to insert object")), db) := by
  unfold DB.BeginObjectNextVersion
  rw [hv]
  simp only [hz, Bool.false_or, beq_iff_eq, hcs, if_false, not_le.2 hbs, hver, ne_eq,
    not_true_eq_false, hnv]

theorem newObjectRow_hasKey (d : Deps) (o : ObjectStream) (v : Version) (e : Option Time)
    (enc : EncryptionParameters) (z : Option Time) :
    (newObjectRow d o v e enc z).hasKey o = true := by
  simp [newObjectRow, ObjectRow.hasKey]

/-- After the insertion the next version for the key is one higher, provided
that fits an `int64`. -/
theorem nextVersion_after_insert (db : DB) (o : ObjectStream) (row : ObjectRow) (v : Int)
    (hnv : db.nextVersion o = some v) (hk : row.hasKey o = true) (hv : row.Version = v) :
    DB.nextVersion { objects := db.objects ++ [row], segments := db.segments } o
      = if IsInt64 (v + 1) then some (v + 1) else none := by
  obtain ⟨m, ⟨r, hr, hrk, hrv⟩, hub, hnext⟩ := (nextVersion_spec
    { objects := db.objects ++ [row], segments := db.segments } o).2
    ⟨row, by simp, hk⟩
  rw [hnext]
  have hle : row.Version ≤ m := hub row (by simp) hk
  have hm : m = v := by
    simp only [List.mem_append, List.mem_singleton] at hr
    rcases hr with hr | hr
    · have hlt := lt_nextVersion db o v hnv r hr hrk
      rw [hrv, ← hv] at hlt
      exact absurd hle (not_le.2 hlt)
    · rw [hr] at hrv; rw [← hrv, hv]
  rw [hm]

/-- Successive calls return consecutive versions, starting at the next version
of the key, as long as they fit an `int64`. -/
theorem beginNextVersions_eq (d : Deps) (opts : BeginObjectNextVersion)
    (hv : d.verifyObjectStream opts.toObjectStream = none)
    (hz : opts.Encryption.IsZero = false) (hcs : opts.Encryption.CipherSuite ≠ EncUnspecified)
    (hbs : 0 < opts.Encryption.BlockSize) (hver : opts.Version = NextVersion) (n : Nat) :
    ∀ (db : DB) (v : Int), db.nextVersion opts.toObjectStream = some v →
      v + (n : Int) ≤ 9223372036854775808 →
      (beginNextVersions d opts n db).1 = (List.range n).map (fun i : Nat => v + (i : Int)) := by
  induction n with
  | zero => intro db v _ _; rfl
  | succ n ih =>
    intro db v hnv hbound
    unfold beginNextVersions
    simp only
    rw [beginObjectNextVersion_valid db d opts hv hz hcs hbs hver v hnv]
    simp only
    rw [List.range_succ_eq_map, List.map_cons, List.map_map]
    simp only [Nat.cast_zero, add_zero, List.cons.injEq, true_and]
    cases n with
    | zero => rfl
    | succ k =>
      have hfit0 := nextVersion_isInt64 db opts.toObjectStream v hnv
      have hfit : IsInt64 (v + 1) := by
        unfold IsInt64 at hfit0 ⊢
        push_cast at hbound
        omega
      have hnext := nextVersion_after_insert db opts.toObjectStream
        (newObjectRow d opts.toObjectStream v opts.ExpiresAt opts.Encryption
          opts.ZombieDeletionDeadline) v hnv (newObjectRow_hasKey _ _ _ _ _ _) rfl
      rw [if_pos hfit] at hnext
      rw [ih _ (v + 1) hnext (by push_cast at hbound ⊢; omega)]
      apply List.map_congr_left
      intro i _
      simp only [Function.comp, Nat.cast_succ]
      ring

/-- Claim C9, as amended.  For a valid `BeginObjectNextVersion` request (the
object stream passes `Verify`, the encryption is set with a positive block
size, `Version` is `NextVersion`) on a store in which every version stored
for the key `(ProjectID, BucketName, ObjectKey)` is an `int64` below the
greatest one, `2^63 - 1`: the call succeeds and appends exactly one Pending
object of the request's key and stream with the returned version; the
returned version is `1` when no object has the key and otherwise one more
than the greatest version stored for the key; hence `n < 2^63` successive
calls for a key absent from the store return `1, 2, ..., n`. -/
theorem beginObjectNextVersion_assigns (db : DB) (d : Deps) (opts : BeginObjectNextVersion)
    (hv : d.verifyObjectStream opts.toObjectStream = none)
    (hz : opts.Encryption.IsZero = false) (hcs : opts.Encryption.CipherSuite ≠ EncUnspecified)
    (hbs : 0 < opts.Encryption.BlockSize) (hver : opts.Version = NextVersion)
    (hfit : ∀ r ∈ db.objects, r.hasKey opts.toObjectStream = true →
      IsInt64 r.Version ∧ r.Version < 9223372036854775807) (n : Nat) :
    (∃ row : ObjectRow,
      (db.BeginObjectNextVersion d opts).1.2 = none ∧
      (db.BeginObjectNextVersion d opts).2
        = { objects := db.objects ++ [row], segments := db.segments } ∧
      row.Status = ObjectStatus.Pending ∧
      row.Version = (db.BeginObjectNextVersion d opts).1.1 ∧
      row.ProjectID = opts.ProjectID ∧ row.BucketName = opts.BucketName ∧
      row.ObjectKey = opts.ObjectKey ∧ row.StreamID = opts.StreamID) ∧
    ((∀ r ∈ db.objects, r.hasKey opts.toObjectStream = false) →
      (db.BeginObjectNextVersion d opts).1.1 = 1) ∧
    ((∃ r ∈ db.objects, r.hasKey opts.toObjectStream = true) →
      ∃ m : Int, (∃ r ∈ db.objects, r.hasKey opts.toObjectStream = true ∧ r.Version = m) ∧
        (∀ r ∈ db.objects, r.hasKey opts.toObjectStream = true → r.Version ≤ m) ∧
        (db.BeginObjectNextVersion d opts).1.1 = m + 1) ∧
    ((∀ r ∈ db.objects, r.hasKey opts.toObjectStream = false) →
      (n : Int) < 9223372036854775808 →
      (beginNextVersions d opts n db).1 = (List.range n).map (fun i : Nat => (i : Int) + 1)) := by
  have hspec := nextVersion_spec db opts.toObjectStream
  -- the subquery returns a version
  have hsome : ∃ v : Int, db.nextVersion opts.toObjectStream = some v := by
    by_cases hex : ∃ r ∈ db.objects, r.hasKey opts.toObjectStream = true
    · obtain ⟨m, ⟨r, hr, hk, hrv⟩, _, hnext⟩ := hspec.2 hex
      have hr1 := hfit r hr hk
      have hm : IsInt64 (m + 1) := by
        have h1 : IsInt64 m := hrv ▸ hr1.1
        have h2 : m < 9223372036854775807 := hrv ▸ hr1.2
        unfold IsInt64 at h1 ⊢
        omega
      exact ⟨m + 1, by rw [hnext, if_pos hm]⟩
    · have hnone : ∀ r ∈ db.objects, r.hasKey opts.toObjectStream = false := by
        intro r hr
        cases hk : r.hasKey opts.toObjectStream
        · rfl
        · exact absurd ⟨r, hr, hk⟩ hex
      exact ⟨1, hspec.1 hnone⟩
  obtain ⟨v, hnv⟩ := hsome
  have hrun := beginObjectNextVersion_valid db d opts hv hz hcs hbs hver v hnv
  rw [hrun]
  refine ⟨⟨_, rfl, rfl, rfl, rfl, rfl, rfl, rfl, rfl⟩, ?_, ?_, ?_⟩
  · intro hnone
    have h1 := hspec.1 hnone
    rw [hnv] at h1
    simp only [Option.some.injEq] at h1
    exact h1
  · intro hex
    obtain ⟨m, hmem, hub, hnext⟩ := hspec.2 hex
    refine ⟨m, hmem, hub, ?_⟩
    rw [hnv] at hnext
    split at hnext
    · simp only [Option.some.injEq] at hnext
      exact hnext
    · exact absurd hnext (by simp)
  · intro hnone hn
    have h1 := hspec.1 hnone
    rw [beginNextVersions_eq d opts hv hz hcs hbs hver n db 1 h1 (by omega)]
    apply List.map_congr_left
    intro i _
    ring

/-- Claim C9 on the scenario of the spec: three calls on the empty store
return the versions `1, 2, 3`; the first call inserts one row. -/
theorem beginObjectNextVersion_assigns_witness :
    (beginNextVersions sampleDeps sampleBeginNext 3 DB.empty).1 = [1, 2, 3] ∧
    (DB.empty.BeginObjectNextVersion sampleDeps sampleBeginNext).1.1 = 1 := by
  have h := beginObjectNextVersion_assigns DB.empty sampleDeps sampleBeginNext rfl (by decide)
    (by decide) (by decide) rfl (by decide) 3
  refine ⟨?_, h.2.1 (by decide)⟩
  rw [h.2.2.2 (by decide) (by decide)]
  decide

/-- Claim C9 as stated fails: in the store that holds key `a` at version
`2^63 - 1` (written by one `BeginObjectExactVersion`), a valid
`BeginObjectNextVersion` for the key does not return `1 +` that version and
inserts nothing; it returns `-1` with an error. -/
theorem nextVersion_overflows :
    (∃ r ∈ maxVersionDB.objects, r.hasKey sampleBeginNext.toObjectStream = true ∧
      r.Version = 9223372036854775807) ∧
    sampleDeps.verifyObjectStream sampleBeginNext.toObjectStream = none ∧
    sampleBeginNext.Encryption.IsZero = false ∧
    sampleBeginNext.Encryption.CipherSuite ≠ EncUnspecified ∧
    0 < sampleBeginNext.Encryption.BlockSize ∧ sampleBeginNext.Version = NextVersion ∧
    maxVersionDB.BeginObjectNextVersion sampleDeps sampleBeginNext
      = ((-1, some (Error.New "unable to insert object")), maxVersionDB) := by
  refine ⟨by decide, rfl, by decide, by decide, by decide, rfl, by decide⟩

/-! ## `BeginObject`: argument validation -/

/-- Claim C10.  For a request whose object stream passes `Verify`,
`BeginObjectNextVersion` returns version `-1` with an `InvalidRequest` error
and leaves the store unchanged whenever `Encryption` is zero or its
`CipherSuite` is unspecified, or `Encryption.BlockSize <= 0`, or
`Version != NextVersion`; `BeginObjectExactVersion` does so whenever
`Encryption` is zero or its `CipherSuite` is unspecified, or
`Encryption.BlockSize <= 0`, or `Version == NextVersion`. -/
theorem beginObject_invalidRequest (db : DB) (d : Deps) (opts : BeginObjectNextVersion)
    (eopts : BeginObjectExactVersion)
    (hv : d.verifyObjectStream opts.toObjectStream = none)
    (hev : d.verifyObjectStream eopts.toObjectStream = none) :
    ((opts.Encryption.IsZero = true ∨ opts.Encryption.CipherSuite = EncUnspecified ∨
        opts.Encryption.BlockSize ≤ 0 ∨ opts.Version ≠ NextVersion) →
      ∃ err, db.BeginObjectNextVersion d opts = ((-1, some err), db) ∧
        err.Has ErrClass.InvalidRequest) ∧
    ((eopts.Encryption.IsZero = true ∨ eopts.Encryption.CipherSuite = EncUnspecified ∨
        eopts.Encryption.BlockSize ≤ 0 ∨ eopts.Version = NextVersion) →
      ∃ err, db.BeginObjectExactVersion d eopts = ((-1, some err), db) ∧
        err.Has ErrClass.InvalidRequest) := by
  constructor
  · intro h
    unfold DB.BeginObjectNextVersion
    rw [hv]
    simp only [Bool.or_eq_true, beq_iff_eq]
    split
    · exact ⟨_, rfl, by decide⟩
    · split
      · exact ⟨_, rfl, by decide⟩
      · split
        · exact ⟨_, rfl, by decide⟩
        · rename_i h1 h2 h3
          rcases h with h | h | h | h
          · exact absurd (Or.inl h) h1
          · exact absurd (Or.inr h) h1
          · exact absurd h h2
          · exact absurd h h3
  · intro h
    unfold DB.BeginObjectExactVersion
    rw [hev]
    simp only [Bool.or_eq_true, beq_iff_eq]
    split
    · exact ⟨_, rfl, by decide⟩
    · split
      · exact ⟨_, rfl, by decide⟩
      · split
        · exact ⟨_, rfl, by decide⟩
        · rename_i h1 h2 h3
          rcases h with h | h | h | h
          · exact absurd (Or.inl h) h1
          · exact absurd (Or.inr h) h1
          · exact absurd h h2
          · exact absurd h h3

/-- Claim C10 on two requests: a next-version request with block size `0` and
an exact-version request with `Version = NextVersion` are rejected. -/
theorem beginObject_invalidRequest_witness :
    (∃ err, committedDB.BeginObjectNextVersion sampleDeps sampleBadBlockSize
        = ((-1, some err), committedDB) ∧ err.Has ErrClass.InvalidRequest) ∧
    (∃ err, committedDB.BeginObjectExactVersion sampleDeps sampleBadVersion
        = ((-1, some err), committedDB) ∧ err.Has ErrClass.InvalidRequest) :=
  ⟨(beginObject_invalidRequest committedDB sampleDeps sampleBadBlockSize sampleBadVersion
      rfl rfl).1 (by decide),
   (beginObject_invalidRequest committedDB sampleDeps sampleBadBlockSize sampleBadVersion
      rfl rfl).2 (by decide)⟩

/-! ## `BeginObjectExactVersion`: conflicts -/

theorem objectKeyTaken_iff (db : DB) (o : ObjectStream) (v : Version) :
    db.objectKeyTaken o v = true ↔
      ∃ r ∈ db.objects, r.ProjectID = o.ProjectID ∧ r.BucketName = o.BucketName ∧
        r.ObjectKey = o.ObjectKey ∧ r.Version = v := by
  unfold DB.objectKeyTaken
  rw [List.any_eq_true]
  simp only [ObjectRow.hasKey, Bool.and_eq_true, decide_eq_true_eq, and_assoc]

/-- `BeginObjectExactVersion` on a valid request. -/
theorem beginObjectExactVersion_valid (db : DB) (d : Deps) (opts : BeginObjectExactVersion)
    (hv : d.verifyObjectStream opts.toObjectStream = none)
    (hz : opts.Encryption.IsZero = false) (hcs : opts.Encryption.CipherSuite ≠ EncUnspecified)
    (hbs : 0 < opts.Encryption.BlockSize) (hver : opts.Version ≠ NextVersion) :
    db.BeginObjectExactVersion d opts =
      if db.objectKeyTaken opts.toObjectStream opts.Version = true then
        ((-1, some (ErrConflict.New "object already exists")), db)
      else
        ((opts.Version, none),
          { objects := db.objects ++
              [newObjectRow d opts.toObjectStream opts.Version opts.ExpiresAt opts.Encryption
                opts.ZombieDeletionDeadline],
            segments := db.segments }) := by
  unfold DB.BeginObjectExactVersion
  rw [hv]
  simp only [hz, Bool.false_or, beq_iff_eq, hcs, if_false, not_le.2 hbs, hver]
  unfold DB.insertObject
  have hrow : (newObjectRow d opts.toObjectStream opts.Version opts.ExpiresAt opts.Encryption
      opts.ZombieDeletionDeadline).Version = opts.Version := rfl
  rw [hrow]
  cases db.objectKeyTaken opts.toObjectStream opts.Version <;> simp

/-- Claim C11.  For a valid `BeginObjectExactVersion` request (the object
stream passes `Verify`, the encryption is set with a positive block size,
`Version` is not `NextVersion`): if an object with the same `(ProjectID,
BucketName, ObjectKey, Version)` exists, the call returns version `-1` with a
`Conflict` error and the store is unchanged; otherwise it returns
`opts.Version` without error and appends exactly one Pending object of the
request's key, version and stream. -/
theorem beginObjectExactVersion_conflict (db : DB) (d : Deps) (opts : BeginObjectExactVersion)
    (hv : d.verifyObjectStream opts.toObjectStream = none)
    (hz : opts.Encryption.IsZero = false) (hcs : opts.Encryption.CipherSuite ≠ EncUnspecified)
    (hbs : 0 < opts.Encryption.BlockSize) (hver : opts.Version ≠ NextVersion) :
    ((∃ r ∈ db.objects, r.ProjectID = opts.ProjectID ∧ r.BucketName = opts.BucketName ∧
        r.ObjectKey = opts.ObjectKey ∧ r.Version = opts.Version) →
      ∃ err, db.BeginObjectExactVersion d opts = ((-1, some err), db) ∧
        err.Has ErrClass.Conflict) ∧
    ((¬ ∃ r ∈ db.objects, r.ProjectID = opts.ProjectID ∧ r.BucketName = opts.BucketName ∧
        r.ObjectKey = opts.ObjectKey ∧ r.Version = opts.Version) →
      ∃ row : ObjectRow,
        db.BeginObjectExactVersion d opts
          = ((opts.Version, none), { objects := db.objects ++ [row], segments := db.segments }) ∧
        row.Status = ObjectStatus.Pending ∧ row.Version = opts.Version ∧
        row.ProjectID = opts.ProjectID ∧ row.BucketName = opts.BucketName ∧
        row.ObjectKey = opts.ObjectKey ∧ row.StreamID = opts.StreamID) := by
  have hrun := beginObjectExactVersion_valid db d opts hv hz hcs hbs hver
  constructor
  · intro hex
    rw [hrun, if_pos ((objectKeyTaken_iff db opts.toObjectStream opts.Version).2 hex)]
    exact ⟨_, rfl, by decide⟩
  · intro hfree
    rw [hrun, if_neg (fun h => hfree ((objectKeyTaken_iff db opts.toObjectStream opts.Version).1 h))]
    exact ⟨_, rfl, rfl, rfl, rfl, rfl, rfl, rfl⟩

/-- Claim C11 on the store holding object `a` at version `1`: the same key
and version conflicts, whatever the stream. -/
theorem beginObjectExactVersion_conflict_witness :
    ∃ err, committedDB.BeginObjectExactVersion sampleDeps (sampleBegin "a" 5)
        = ((-1, some err), committedDB) ∧ err.Has ErrClass.Conflict :=
  (beginObjectExactVersion_conflict committedDB sampleDeps (sampleBegin "a" 5) rfl (by decide)
    (by decide) (by decide) (by decide)).1 (by decide)

/-! ## `BeginSegment`: no effect on the store -/

/-- Claim C12.  Whatever `BeginSegment` returns, the objects and the segments
of the store after the call are those before it. -/
theorem beginSegment_pure (db : DB) (d : Deps) (opts : BeginSegment) :
    (db.BeginSegment d opts).2.objects = db.objects ∧
    (db.BeginSegment d opts).2.segments = db.segments := by
  rw [beginSegment_store db d opts]
  exact ⟨rfl, rfl⟩

/-! ## `UpdateObjectMetadata` -/

theorem setMetadata_matches (r : ObjectRow) (opts : UpdateObjectMetadata) (o : ObjectStream)
    (st : ObjectStatus) :
    (r.setMetadata opts).matchesStream o st = r.matchesStream o st := by
  simp [ObjectRow.matchesStream, ObjectRow.setMetadata]

theorem setMetadata_idem (r : ObjectRow) (opts : UpdateObjectMetadata) :
    (r.setMetadata opts).setMetadata opts = r.setMetadata opts := by
  simp [ObjectRow.setMetadata]

/-- The `UPDATE` of `UpdateObjectMetadata` selects the same rows after it ran. -/
theorem updateRow_matches (r : ObjectRow) (opts : UpdateObjectMetadata) :
    (if r.matchesStream opts.toObjectStream ObjectStatus.Committed
      then r.setMetadata opts else r).matchesStream opts.toObjectStream ObjectStatus.Committed
      = r.matchesStream opts.toObjectStream ObjectStatus.Committed := by
  split
  · rw [setMetadata_matches]
  · rfl

/-- Running the `UPDATE` of `UpdateObjectMetadata` twice is running it once. -/
theorem updateRows_idem (l : List ObjectRow) (opts : UpdateObjectMetadata) :
    (l.map (fun r => if r.matchesStream opts.toObjectStream ObjectStatus.Committed
        then r.setMetadata opts else r)).map
      (fun r => if r.matchesStream opts.toObjectStream ObjectStatus.Committed
        then r.setMetadata opts else r)
      = l.map (fun r => if r.matchesStream opts.toObjectStream ObjectStatus.Committed
        then r.setMetadata opts else r) := by
  rw [List.map_map]
  apply List.map_congr_left
  intro r _
  simp only [Function.comp]
  by_cases hm : r.matchesStream opts.toObjectStream ObjectStatus.Committed = true
  · simp only [hm, if_true, setMetadata_matches, setMetadata_idem]
  · simp only [hm]
    simp only [Bool.false_eq_true, if_false, hm]

theorem updateRows_countP (l : List ObjectRow) (opts : UpdateObjectMetadata) :
    (l.map (fun r => if r.matchesStream opts.toObjectStream ObjectStatus.Committed
        then r.setMetadata opts else r)).countP
      (fun r => r.matchesStream opts.toObjectStream ObjectStatus.Committed)
      = l.countP (fun r => r.matchesStream opts.toObjectStream ObjectStatus.Committed) := by
  rw [List.countP_map]
  congr 1
  funext r
  exact updateRow_matches r opts

/-- With no row selected the `UPDATE` of `UpdateObjectMetadata` changes nothing. -/
theorem updateRows_of_countP_zero (l : List ObjectRow) (opts : UpdateObjectMetadata)
    (h : l.countP (fun r => r.matchesStream opts.toObjectStream ObjectStatus.Committed) = 0) :
    l.map (fun r => if r.matchesStream opts.toObjectStream ObjectStatus.Committed
      then r.setMetadata opts else r) = l := by
  rw [List.countP_eq_zero] at h
  have hid : l.map (fun r => if r.matchesStream opts.toObjectStream ObjectStatus.Committed
      then r.setMetadata opts else r) = l.map id := by
    apply List.map_congr_left
    intro r hr
    simp only [h r hr, id]
    simp
  rw [hid, List.map_id]

/-- `UpdateObjectMetadata` once `Verify` passes and the version is positive. -/
theorem updateObjectMetadata_valid (db : DB) (d : Deps) (opts : UpdateObjectMetadata)
    (hv : d.verifyObjectStream opts.toObjectStream = none) (hver : 0 < opts.Version) :
    db.UpdateObjectMetadata d opts =
      if db.objects.countP
          (fun r => r.matchesStream opts.toObjectStream ObjectStatus.Committed) = 0 then
        (some (ErrObjectNotFound.Wrap
          (Error.New "object with specified version and committed status is missing")), db)
      else
        (none, { db with objects := db.objects.map (fun r =>
            if r.matchesStream opts.toObjectStream ObjectStatus.Committed
            then r.setMetadata opts else r) }) := by
  unfold DB.UpdateObjectMetadata
  rw [hv]
  simp only [not_le.2 hver, if_false]
  split
  · rename_i h0
    rw [updateRows_of_countP_zero db.objects opts h0]
  · rfl

/-- Idempotence of `UpdateObjectMetadata`, for every store and every request. -/
theorem updateObjectMetadata_twice (db : DB) (d : Deps) (opts : UpdateObjectMetadata) :
    (db.UpdateObjectMetadata d opts).2.UpdateObjectMetadata d opts
      = db.UpdateObjectMetadata d opts := by
  unfold DB.UpdateObjectMetadata
  cases hv : d.verifyObjectStream opts.toObjectStream with
  | some err => simp only [hv]
  | none =>
    simp only
    by_cases hver : opts.Version ≤ 0
    · simp only [hver, if_true, hv]
    · simp only [hver, if_false]
      by_cases h0 : db.objects.countP
          (fun r => r.matchesStream opts.toObjectStream ObjectStatus.Committed) = 0
      · simp only [h0, if_true, hv, hver, if_false, updateRows_countP, updateRows_idem]
      · simp only [h0, if_false, hv, hver, updateRows_countP, updateRows_idem]

/-- Claim C13, as amended.  For every store and every request, a second
`UpdateObjectMetadata` with the same request returns what the first returned
and leaves the store as the first left it.  For a request that passes
validation (`Verify` passes and `Version > 0`): when some Committed row
matches, the call returns no error and sets on each matching row the three
encrypted-metadata fields and nothing else; when none matches it returns
`ObjectNotFound` and changes nothing. -/
theorem updateObjectMetadata_idempotent (db : DB) (d : Deps) (opts : UpdateObjectMetadata) :
    ((db.UpdateObjectMetadata d opts).2.UpdateObjectMetadata d opts).1
        = (db.UpdateObjectMetadata d opts).1 ∧
    ((db.UpdateObjectMetadata d opts).2.UpdateObjectMetadata d opts).2
        = (db.UpdateObjectMetadata d opts).2 ∧
    (d.verifyObjectStream opts.toObjectStream = none → 0 < opts.Version →
      ((∃ r ∈ db.objects, r.matchesStream opts.toObjectStream ObjectStatus.Committed = true) →
        (db.UpdateObjectMetadata d opts).1 = none ∧
        (db.UpdateObjectMetadata d opts).2.segments = db.segments ∧
        List.Forall₂
          (fun r r1 => if r.matchesStream opts.toObjectStream ObjectStatus.Committed
            then r1 = { r with
              EncryptedMetadataNonce := opts.EncryptedMetadataNonce
              EncryptedMetadata := opts.EncryptedMetadata
              EncryptedMetadataEncryptedKey := opts.EncryptedMetadataEncryptedKey }
            else r1 = r)
          db.objects (db.UpdateObjectMetadata d opts).2.objects) ∧
      ((¬ ∃ r ∈ db.objects, r.matchesStream opts.toObjectStream ObjectStatus.Committed = true) →
        ∃ err, db.UpdateObjectMetadata d opts = (some err, db) ∧
          err.Has ErrClass.ObjectNotFound)) := by
  refine ⟨by rw [updateObjectMetadata_twice], by rw [updateObjectMetadata_twice], ?_⟩
  intro hv hver
  have hrun := updateObjectMetadata_valid db d opts hv hver
  constructor
  · intro hex
    have hne : ¬ db.objects.countP
        (fun r => r.matchesStream opts.toObjectStream ObjectStatus.Committed) = 0 := by
      rw [List.countP_eq_zero]
      intro hall
      obtain ⟨r, hr, hm⟩ := hex
      exact hall r hr hm
    rw [hrun, if_neg hne]
    refine ⟨rfl, rfl, ?_⟩
    show List.Forall₂ _ db.objects (db.objects.map _)
    rw [List.forall₂_map_right_iff, List.forall₂_same]
    intro r _
    split <;> rfl
  · intro hnone
    have h0 : db.objects.countP
        (fun r => r.matchesStream opts.toObjectStream ObjectStatus.Committed) = 0 := by
      rw [List.countP_eq_zero]
      intro r hr hm
      exact hnone ⟨r, hr, hm⟩
    rw [hrun, if_pos h0]
    exact ⟨_, rfl, by simp [Err.Has, ErrObjectNotFound.Wrap]⟩

/-- Claim C13 on the store of a committed upload: the update succeeds, and a
second update returns the same and leaves the same store. -/
theorem updateObjectMetadata_idempotent_witness :
    (committedDB.UpdateObjectMetadata sampleDeps (sampleUpdate "a" 1 9)).1 = none ∧
    (committedDB.UpdateObjectMetadata sampleDeps (sampleUpdate "a" 1 9)).2.UpdateObjectMetadata
        sampleDeps (sampleUpdate "a" 1 9)
      = committedDB.UpdateObjectMetadata sampleDeps (sampleUpdate "a" 1 9) := by
  have h := updateObjectMetadata_idempotent committedDB sampleDeps (sampleUpdate "a" 1 9)
  exact ⟨((h.2.2 rfl (by decide)).1 (by decide)).1, Prod.ext h.1 h.2.1⟩

/-- Claim C13 as stated fails in its description of the outcomes: a request
with `Version = 0` on the empty store, where no Committed row matches, does
not return `ObjectNotFound`; it returns an `InvalidRequest` error. -/
theorem updateObjectMetadata_version_guard :
    (¬ ∃ r ∈ DB.empty.objects,
      r.matchesStream (sampleUpdate "a" 0 9).toObjectStream ObjectStatus.Committed = true) ∧
    ∃ err, DB.empty.UpdateObjectMetadata sampleDeps (sampleUpdate "a" 0 9)
        = (some err, DB.empty) ∧
      err.Has ErrClass.InvalidRequest ∧ ¬ err.Has ErrClass.ObjectNotFound := by
  refine ⟨by decide, ErrInvalidRequest.New "Version invalid", by decide, by decide, by decide⟩

/-! ## `BeginSegment`: an existing segment -/

/-- `BeginSegment` once the two `Verify` calls and the `RootPieceID` check
pass: the result depends on the Pending object alone. -/
theorem beginSegment_valid (db : DB) (d : Deps) (opts : BeginSegment)
    (hv : d.verifyObjectStream opts.toObjectStream = none)
    (hpv : d.verifyPieces opts.Pieces = none) (hroot : opts.RootPieceID.IsZero = false) :
    db.BeginSegment d opts =
      if db.hasPending opts.toObjectStream = false then
        (some (Error.New "pending object missing"), db)
      else (none, db) := by
  unfold DB.BeginSegment
  rw [hv, hpv]
  simp only [hroot, Bool.false_eq_true, if_false]
  cases db.hasPending opts.toObjectStream <;> simp

/-- Claim C21 at the failing input.  In the store of a running upload the
addressed object `a` is Pending and a segment is stored at `(9, (0, 0))`; a
`BeginSegment` request for that stream and position passes the argument
validation, and the call returns `nil`, not an error. -/
theorem beginSegment_existing_segment :
    uploadedDB.hasPending (sampleBeginSegment "a" 9 0).toObjectStream = true ∧
    (∃ r ∈ uploadedDB.segments, r.StreamID = (sampleBeginSegment "a" 9 0).StreamID ∧
      r.Position = (sampleBeginSegment "a" 9 0).Position) ∧
    sampleDeps.verifyObjectStream (sampleBeginSegment "a" 9 0).toObjectStream = none ∧
    sampleDeps.verifyPieces (sampleBeginSegment "a" 9 0).Pieces = none ∧
    (sampleBeginSegment "a" 9 0).RootPieceID.IsZero = false ∧
    uploadedDB.BeginSegment sampleDeps (sampleBeginSegment "a" 9 0) = (none, uploadedDB) := by
  refine ⟨by decide, by decide, rfl, by decide, by decide, by decide⟩

end Metabase

/-! # Properties of the audit queues -/

namespace Audit

open Metabase (UUID SegmentPosition)

/-! ## `Queue.Next` -/

/-- Claim C14.  On an empty queue `Next` returns the zero `Segment` with an
`ErrEmptyQueue` error and leaves the queue unchanged; on a non-empty queue it
returns the first segment without error and keeps exactly the segments behind
it, in their order, so that `Size` goes down by one; `Next` fails if and only
if the queue is empty. -/
theorem queue_next_fifo (q : Queue) :
    (q.Size = 0 →
      q.Next = ((Segment.zero, some (ErrEmptyQueue.New "")), q) ∧
      (ErrEmptyQueue.New "").cls = ErrClass.EmptyQueue) ∧
    (∀ first rest, q.queue = first :: rest →
      q.Next = ((first, none), NewQueue rest) ∧ q.Next.2.Size + 1 = q.Size) ∧
    (q.Next.1.2 ≠ none ↔ q.Size = 0) := by
  unfold Queue.Next Queue.Size
  cases hq : q.queue with
  | nil => simp [ErrEmptyQueue.New]
  | cons first rest => simp [NewQueue]

/-- Claim C14 on the batch `A`: `Next` returns its first segment and keeps the second. -/
theorem queue_next_fifo_witness :
    (NewQueue batchA).Next = ((seg 1 0, none), NewQueue [seg 1 1]) ∧
    (NewQueue []).Next = ((Segment.zero, some (ErrEmptyQueue.New "")), NewQueue []) :=
  ⟨((queue_next_fifo (NewQueue batchA)).2.1 (seg 1 0) [seg 1 1] rfl).1,
   ((queue_next_fifo (NewQueue [])).1 rfl).1⟩

/-! ## `Queues.Push` -/

/-- Claim C15.  `Push` has three cases.  (1) With a deferred swap registered
it returns `ErrPendingQueueInProgress` and changes nothing.  (2) Otherwise,
with an empty active queue, it returns `nil`, the active queue becomes the
batch and no deferred swap is registered.  (3) Otherwise it returns `nil`,
the active queue is unchanged and a deferred swap holding the batch is
registered.  `Push` fails only in case (1). -/
theorem queues_push_cases (queues : Queues) (pendingQueue : List Segment) :
    (queues.swapQueue ≠ none →
      queues.Push pendingQueue = (some (ErrPendingQueueInProgress.New ""), queues) ∧
      (ErrPendingQueueInProgress.New "").cls = ErrClass.PendingQueueInProgress) ∧
    (queues.swapQueue = none → queues.nextQueue.Size = 0 →
      (queues.Push pendingQueue).1 = none ∧
      (queues.Push pendingQueue).2.nextQueue = NewQueue pendingQueue ∧
      (queues.Push pendingQueue).2.nextQueue.queue = pendingQueue ∧
      (queues.Push pendingQueue).2.swapQueue = none) ∧
    (queues.swapQueue = none → queues.nextQueue.Size ≠ 0 →
      (queues.Push pendingQueue).1 = none ∧
      (queues.Push pendingQueue).2.nextQueue = queues.nextQueue ∧
      (queues.Push pendingQueue).2.swapQueue = some pendingQueue) ∧
    ((queues.Push pendingQueue).1 ≠ none ↔ queues.swapQueue ≠ none) := by
  unfold Queues.Push
  refine ⟨?_, ?_, ?_, ?_⟩
  · intro h
    simp [h, ErrPendingQueueInProgress.New]
  · intro h h0
    simp [h, h0, NewQueue]
  · intro h h0
    simp [h, h0]
  · by_cases h : queues.swapQueue = none
    · by_cases h0 : queues.nextQueue.Size = 0 <;> simp [h, h0]
    · simp [h]

/-- Claim C15 on a fresh `Queues`: the first batch becomes the active queue,
the second is deferred, the third is refused. -/
theorem queues_push_cases_witness :
    (NewQueues.Push batchA).2.nextQueue = NewQueue batchA ∧
    ((NewQueues.Push batchA).2.Push batchB).2.swapQueue = some batchB ∧
    (((NewQueues.Push batchA).2.Push batchB).2.Push batchA).1
      = some (ErrPendingQueueInProgress.New "") :=
  ⟨((queues_push_cases NewQueues batchA).2.1 rfl rfl).2.1,
   ((queues_push_cases (NewQueues.Push batchA).2 batchB).2.2.1 rfl (by decide)).2.2,
   by rw [((queues_push_cases ((NewQueues.Push batchA).2.Push batchB).2 batchA).1
     (by decide)).1]⟩

/-! ## `Queues.Fetch` -/

/-- `Fetch` with an empty active queue and a deferred swap: the swap runs
once, the batch is returned, and an empty queue is installed. -/
theorem fetch_empty_pending (queues : Queues) (pendingQueue : List Segment)
    (hs : queues.swapQueue = some pendingQueue) (h0 : queues.nextQueue.Size = 0)
    (hc : queues.queueSwapped = Chan.made) :
    queues.Fetch = some (NewQueue pendingQueue,
      { nextQueue := NewQueue [], swapQueue := none, queueSwapped := Chan.closed }) := by
  unfold Queues.Fetch
  simp [hs, h0, Queues.callSwap, Queues.runSwap, hc]

/-- `Fetch` with a non-empty active queue and a deferred swap: the active
queue is returned and the swap installs the batch. -/
theorem fetch_nonempty_pending (queues : Queues) (pendingQueue : List Segment)
    (hs : queues.swapQueue = some pendingQueue) (h0 : queues.nextQueue.Size ≠ 0)
    (hc : queues.queueSwapped = Chan.made) :
    queues.Fetch = some (queues.nextQueue,
      { nextQueue := NewQueue pendingQueue, swapQueue := none, queueSwapped := Chan.closed }) := by
  unfold Queues.Fetch
  simp [hs, h0, Queues.callSwap, Queues.runSwap, hc]

/-- `Fetch` without a deferred swap: the active queue is returned and an
empty queue is installed. -/
theorem fetch_no_pending (queues : Queues) (hs : queues.swapQueue = none) :
    queues.Fetch = some (queues.nextQueue, { queues with nextQueue := NewQueue [] }) := by
  unfold Queues.Fetch
  simp [hs]

/-- In every state built by `NewQueues`, `Push` and `Fetch`, a registered
deferred swap has its channel open: `Fetch` does not panic. -/
theorem reachable_swapChannelOpen (queues : Queues) (hr : queues.Reachable) :
    queues.SwapChannelOpen := by
  induction hr with
  | new => intro h; exact absurd rfl h
  | push q p _ ih =>
    unfold Queues.SwapChannelOpen at ih ⊢
    unfold Queues.Push
    by_cases hs : q.swapQueue = none
    · by_cases h0 : q.nextQueue.Size = 0 <;> simp [hs, h0]
    · simp only [ne_eq, hs, not_false_eq_true, if_true]
      exact fun _ => ih hs
  | fetch q res _ hf ih =>
    unfold Queues.SwapChannelOpen at ih ⊢
    cases hs : q.swapQueue with
    | none =>
      rw [fetch_no_pending q hs] at hf
      simp only [Option.some.injEq] at hf
      rw [← hf]
      intro h
      exact absurd hs h
    | some p =>
      have hc := ih (by rw [hs]; simp)
      by_cases h0 : q.nextQueue.Size = 0
      · rw [fetch_empty_pending q p hs h0 hc] at hf
        simp only [Option.some.injEq] at hf
        rw [← hf]
        intro h
        exact absurd rfl h
      · rw [fetch_nonempty_pending q p hs h0 hc] at hf
        simp only [Option.some.injEq] at hf
        rw [← hf]
        intro h
        exact absurd rfl h

/-- Claim C16.  In a `Queues` state whose deferred swap, if any, has its
channel open (as in every state built by `NewQueues`, `Push` and `Fetch`),
`Fetch` returns the batch of the deferred swap when the active queue is empty
and a swap is registered, and the previous active queue otherwise; after
`Fetch` no deferred swap is registered; the new active queue is the deferred
batch when a swap was registered and the previous active queue was non-empty,
and an empty queue in every other case. -/
theorem queues_fetch_handoff (queues : Queues) (hopen : queues.SwapChannelOpen) :
    (∀ pendingQueue, queues.swapQueue = some pendingQueue → queues.nextQueue.Size = 0 →
      ∃ after, queues.Fetch = some (NewQueue pendingQueue, after) ∧
        after.swapQueue = none ∧ after.nextQueue = NewQueue []) ∧
    (∀ pendingQueue, queues.swapQueue = some pendingQueue → queues.nextQueue.Size ≠ 0 →
      ∃ after, queues.Fetch = some (queues.nextQueue, after) ∧
        after.swapQueue = none ∧ after.nextQueue = NewQueue pendingQueue) ∧
    (queues.swapQueue = none →
      ∃ after, queues.Fetch = some (queues.nextQueue, after) ∧
        after.swapQueue = none ∧ after.nextQueue = NewQueue []) := by
  refine ⟨?_, ?_, ?_⟩
  · intro p hs h0
    exact ⟨_, fetch_empty_pending queues p hs h0 (hopen (by rw [hs]; simp)), rfl, rfl⟩
  · intro p hs h0
    exact ⟨_, fetch_nonempty_pending queues p hs h0 (hopen (by rw [hs]; simp)), rfl, rfl⟩
  · intro hs
    exact ⟨_, fetch_no_pending queues hs, hs, rfl⟩

/-- Claim C16 after `push(A); push(B)` on a fresh `Queues`: `Fetch` returns
queue `A` and installs queue `B`. -/
theorem queues_fetch_handoff_witness :
    ∃ after, pushedTwice.Fetch = some (NewQueue batchA, after) ∧
      after.swapQueue = none ∧ after.nextQueue = NewQueue batchB :=
  (queues_fetch_handoff pushedTwice (by decide)).2.1 batchB rfl (by decide)

/-- The three cases of `Push`, as equations on the whole state. -/
theorem queues_push_state (queues : Queues) (pendingQueue : List Segment) :
    (queues.swapQueue ≠ none →
      queues.Push pendingQueue = (some (ErrPendingQueueInProgress.New ""), queues)) ∧
    (queues.swapQueue = none → queues.nextQueue.Size = 0 →
      queues.Push pendingQueue
        = (none, { nextQueue := NewQueue pendingQueue, swapQueue := none,
                   queueSwapped := queues.queueSwapped })) ∧
    (queues.swapQueue = none → queues.nextQueue.Size ≠ 0 →
      queues.Push pendingQueue
        = (none, { nextQueue := queues.nextQueue, swapQueue := some pendingQueue,
                   queueSwapped := Chan.made })) := by
  unfold Queues.Push
  refine ⟨?_, ?_, ?_⟩
  · intro h; simp [h]
  · intro h h0; simp [h, h0]
  · intro h h0; simp [h, h0]
/-! ## Backpressure of `Push` -/

/-- Claim C17, as amended.  For every `Queues` state and batches `A` and `B`,
when `Push(A)` is accepted, a `Push(B)` issued next is rejected with
`ErrPendingQueueInProgress` (and changes nothing) if and only if `Push(A)`
found a non-empty active queue, that is, registered a deferred swap; after a
`Push(A)` that found the active queue empty, `Push(B)` is accepted.  On a
fresh `Queues` with `A` non-empty: `push(A)` and `push(B)` are accepted, a
third push is rejected, `Fetch` returns queue `A` and the following `Fetch`
returns queue `B`. -/
theorem push_backpressure (queues : Queues) (A B : List Segment)
    (hA : (queues.Push A).1 = none) :
    (queues.nextQueue.Size ≠ 0 →
      (queues.Push A).2.Push B = (some (ErrPendingQueueInProgress.New ""), (queues.Push A).2)) ∧
    (queues.nextQueue.Size = 0 → ((queues.Push A).2.Push B).1 = none) ∧
    (((queues.Push A).2.Push B).1 ≠ none ↔ queues.nextQueue.Size ≠ 0) ∧
    (A ≠ [] →
      (NewQueues.Push A).1 = none ∧ ((NewQueues.Push A).2.Push B).1 = none ∧
      (∀ C, (((NewQueues.Push A).2.Push B).2.Push C).1
        = some (ErrPendingQueueInProgress.New "")) ∧
      ∃ after, ((NewQueues.Push A).2.Push B).2.Fetch = some (NewQueue A, after) ∧
        ∃ last, after.Fetch = some (NewQueue B, last)) := by
  have hs : queues.swapQueue = none := by
    by_contra h
    rw [((queues_push_state queues A).1 h)] at hA
    exact absurd hA (by simp)
  have hne : queues.nextQueue.Size ≠ 0 →
      (queues.Push A).2.Push B
        = (some (ErrPendingQueueInProgress.New ""), (queues.Push A).2) := by
    intro h0
    have h1 := (queues_push_state queues A).2.2 hs h0
    exact (queues_push_state (queues.Push A).2 B).1 (by rw [h1]; simp)
  have he : queues.nextQueue.Size = 0 → ((queues.Push A).2.Push B).1 = none := by
    intro h0
    have h1 := (queues_push_state queues A).2.1 hs h0
    rw [h1]
    unfold Queues.Push
    simp only [ne_eq, hs, not_true_eq_false, if_false]
    split <;> rfl
  refine ⟨hne, he, ?_, ?_⟩
  · constructor
    · intro hrej h0
      exact hrej (he h0)
    · intro h0
      rw [hne h0]
      simp
  · intro hAne
    have hlen : (NewQueue A).Size ≠ 0 := by
      simp only [NewQueue, Queue.Size, ne_eq, List.length_eq_zero]
      exact hAne
    have h1 : NewQueues.Push A
        = (none, { nextQueue := NewQueue A, swapQueue := none, queueSwapped := Chan.nil }) :=
      (queues_push_state NewQueues A).2.1 rfl rfl
    have h2 : (NewQueues.Push A).2.Push B
        = (none, { nextQueue := NewQueue A, swapQueue := some B, queueSwapped := Chan.made }) := by
      rw [h1]
      exact (queues_push_state _ B).2.2 rfl hlen
    refine ⟨by rw [h1], by rw [h2], ?_, ?_⟩
    · intro C
      rw [h2]
      rw [(queues_push_state _ C).1 (by simp)]
    · rw [h2]
      exact ⟨_, fetch_nonempty_pending _ B rfl hlen rfl, ⟨_, fetch_no_pending _ rfl⟩⟩

/-- Claim C17 on a state with a non-empty active queue: a first push is
deferred and a second is rejected. -/
theorem push_backpressure_witness :
    ((NewQueues.Push batchA).2.Push batchB).2.Push batchA
      = (some (ErrPendingQueueInProgress.New ""), ((NewQueues.Push batchA).2.Push batchB).2) :=
  (push_backpressure (NewQueues.Push batchA).2 batchB batchA (by decide)).1 (by decide)

/-- Claim C17 as stated fails: on a fresh `Queues`, `Push(A)` is accepted and
the `Push(B)` issued next, with no `Fetch` in between, is accepted too. -/
theorem second_push_accepted :
    (NewQueues.Push batchA).1 = none ∧ ((NewQueues.Push batchA).2.Push batchB).1 = none ∧
    ((NewQueues.Push batchA).2.Push batchB).2.swapQueue = some batchB := by
  decide

/-! ## `Queues.WaitForSwap` -/

/-- Claim C18.  With no deferred swap registered, `WaitForSwap` returns `nil`
at once, whatever the context, and the state is unchanged. -/
theorem waitForSwap_no_pending (queues : Queues) (ctx : Context)
    (hs : queues.swapQueue = none) :
    queues.WaitForSwap ctx = (WaitResult.returned none, queues) := by
  unfold Queues.WaitForSwap
  simp [hs]

/-- Claim C18 on a fresh `Queues` with a cancelled context. -/
theorem waitForSwap_no_pending_witness :
    NewQueues.WaitForSwap cancelledContext = (WaitResult.returned none, NewQueues) :=
  waitForSwap_no_pending NewQueues cancelledContext rfl

/-! ## `ByStreamIDAndPosition.Less` -/

/-- The three results of `Compare`. -/
theorem compare_cases (a b : Nat) :
    (a < b ∧ Metabase.UUID.Compare a b = -1) ∨ (a = b ∧ Metabase.UUID.Compare a b = 0) ∨
      (b < a ∧ Metabase.UUID.Compare a b = 1) := by
  unfold Metabase.UUID.Compare
  rcases Nat.lt_trichotomy a b with h | h | h
  · left; exact ⟨h, by simp [h]⟩
  · right; left; subst h; exact ⟨rfl, by simp⟩
  · right; right
    have h1 : ¬ a < b := by omega
    have h2 : a ≠ b := by omega
    exact ⟨h, by simp [h1, h2]⟩

/-- Claim C19.  For every slice `b` and valid indices `i`, `j`: `Less(i, j)`
is true if and only if `b[i].StreamID` compares below `b[j].StreamID`, or the
two `StreamID`s are equal and `b[i].Position` is less than `b[j].Position`,
`Part` first, then `Index`. -/
theorem less_lexicographic (b : ByStreamIDAndPosition) (i j : Fin b.length) :
    b.Less i j = true ↔
      (Metabase.UUID.Compare (b.get i).StreamID (b.get j).StreamID < 0 ∨
        ((b.get i).StreamID = (b.get j).StreamID ∧
          ((b.get i).Position.Part < (b.get j).Position.Part ∨
            ((b.get i).Position.Part = (b.get j).Position.Part ∧
              (b.get i).Position.Index < (b.get j).Position.Index)))) := by
  unfold ByStreamIDAndPosition.Less
  simp only
  rcases compare_cases (b.get i).StreamID (b.get j).StreamID with ⟨_, hc⟩ | ⟨h, hc⟩ | ⟨h, hc⟩
  · rw [hc]
    simp
  · have h2 : (b[(i : Nat)]).StreamID = (b[(j : Nat)]).StreamID := h
    rw [hc]
    simp [h2, Metabase.SegmentPosition.Less]
  · have hne : (b[(i : Nat)]).StreamID ≠ (b[(j : Nat)]).StreamID := by
      intro e
      have h3 : (b[(j : Nat)]).StreamID < (b[(i : Nat)]).StreamID := h
      rw [e] at h3
      exact lt_irrefl _ h3
    rw [hc]
    simp [hne]

/-! ## `Fetch` on an empty active queue with a deferred swap -/

/-- Claim C22, as amended.  For every `Queues` state with an empty active
queue and a deferred swap registered for batch `B` (its channel open), `Fetch`
runs the swap once: the swap installs `B` as the active queue and clears
`swapQueue`, so the second test of `Fetch` finds no swap and installs an empty
queue.  The returned queue holds `B`, the active queue after `Fetch` is empty,
no swap is registered and the channel is closed. -/
theorem fetch_swaps_once (queues : Queues) (B : List Segment)
    (h0 : queues.nextQueue.Size = 0) (hs : queues.swapQueue = some B)
    (hopen : queues.queueSwapped = Chan.made) :
    (∃ q1, queues.callSwap = some q1 ∧ q1.nextQueue = NewQueue B ∧ q1.swapQueue = none ∧
      q1.callSwap = some q1) ∧
    (∃ after, queues.Fetch = some (NewQueue B, after) ∧
      after.nextQueue = NewQueue [] ∧ after.nextQueue.Size = 0 ∧
      after.swapQueue = none ∧ after.queueSwapped = Chan.closed ∧
      (B ≠ [] → after.nextQueue ≠ NewQueue B)) := by
  constructor
  · refine ⟨{ nextQueue := NewQueue B, swapQueue := none, queueSwapped := Chan.closed },
      ?_, rfl, rfl, rfl⟩
    simp [Queues.callSwap, Queues.runSwap, hs, hopen]
  · refine ⟨_, fetch_empty_pending queues B hs h0 hopen, rfl, rfl, rfl, rfl, ?_⟩
    intro hB heq
    simp only [NewQueue, Queue.mk.injEq] at heq
    exact hB heq.symm

/-- Claim C22 on a state with an empty active queue and a swap for batch `B`:
`Fetch` returns queue `B` and leaves an empty active queue. -/
theorem fetch_swaps_once_witness :
    ∃ after, emptyWithPending.Fetch = some (NewQueue batchB, after) ∧
      after.nextQueue = NewQueue [] ∧ after.swapQueue = none := by
  obtain ⟨after, h1, h2, _, h4, _⟩ := (fetch_swaps_once emptyWithPending batchB rfl rfl rfl).2
  exact ⟨after, h1, h2, h4⟩

/-- Claim C22 as stated fails: on a state with an empty active queue and a
deferred swap for batch `B`, `Fetch` returns queue `B`, and the active queue
after `Fetch` is empty, not another copy of `B`. -/
theorem fetch_leaves_empty_queue :
    emptyWithPending.nextQueue.Size = 0 ∧ emptyWithPending.swapQueue = some batchB ∧
    ∃ after, emptyWithPending.Fetch = some (NewQueue batchB, after) ∧
      after.nextQueue.Size = 0 ∧ after.nextQueue ≠ NewQueue batchB := by
  refine ⟨rfl, rfl, { nextQueue := NewQueue [], swapQueue := none, queueSwapped := Chan.closed },
    by decide, rfl, by decide⟩

/-! ## Runs: the deferred swap and the hand-off of batches -/

/-- In every state built by `NewQueues`, `Push` and `Fetch`, a registered
deferred swap comes with a non-empty active queue. -/
theorem reachable_swap_nonempty (queues : Queues) (hr : queues.Reachable) :
    queues.swapQueue ≠ none → 0 < queues.nextQueue.Size := by
  induction hr with
  | new => intro h; exact absurd rfl h
  | push q p _ ih =>
    by_cases hs : q.swapQueue = none
    · by_cases h0 : q.nextQueue.Size = 0
      · rw [(queues_push_state q p).2.1 hs h0]
        intro h; exact absurd rfl h
      · rw [(queues_push_state q p).2.2 hs h0]
        intro _; exact Nat.pos_of_ne_zero h0
    · rw [(queues_push_state q p).1 hs]
      exact ih
  | fetch q res hq hf _ =>
    have hopen := reachable_swapChannelOpen q hq
    cases hs : q.swapQueue with
    | none =>
      rw [fetch_no_pending q hs] at hf
      simp only [Option.some.injEq] at hf
      rw [← hf]
      intro h; exact absurd hs h
    | some p =>
      have hc := hopen (by rw [hs]; simp)
      by_cases h0 : q.nextQueue.Size = 0
      · rw [fetch_empty_pending q p hs h0 hc] at hf
        simp only [Option.some.injEq] at hf
        rw [← hf]
        intro h; exact absurd rfl h
      · rw [fetch_nonempty_pending q p hs h0 hc] at hf
        simp only [Option.some.injEq] at hf
        rw [← hf]
        intro h; exact absurd rfl h

theorem nonEmptyBatches_append (xs ys : List (List Segment)) :
    nonEmptyBatches (xs ++ ys) = nonEmptyBatches xs ++ nonEmptyBatches ys := by
  simp [nonEmptyBatches, List.filter_append]

theorem nonEmptyBatches_nil_batch : nonEmptyBatches [[]] = [] := rfl

theorem size_zero_iff (q : Queue) : q.Size = 0 ↔ q.queue = [] := by
  simp [Queue.Size]

/-- One call on a reachable, conserving run: the call returns, and the run
after it is reachable and conserving. -/
theorem step_conserved (r : Run) (op : Op) (hr : r.state.Reachable) (hc : r.Conserved) :
    ∃ r1, r.step op = some r1 ∧ r1.state.Reachable ∧ r1.Conserved := by
  cases op with
  | push p =>
    refine ⟨_, rfl, Queues.Reachable.push _ _ hr, ?_⟩
    unfold Run.Conserved at hc ⊢
    by_cases hs : r.state.swapQueue = none
    · by_cases h0 : r.state.nextQueue.Size = 0
      · have hq : r.state.nextQueue.queue = [] := (size_zero_iff _).1 h0
        simp only [(queues_push_state r.state p).2.1 hs h0, if_true]
        simp only [Queues.held, hs, hq, Option.toList, NewQueue] at hc ⊢
        rw [nonEmptyBatches_append] at hc ⊢
        rw [nonEmptyBatches_append, hc, nonEmptyBatches_nil_batch, List.append_nil]
      · simp only [(queues_push_state r.state p).2.2 hs h0, if_true]
        simp only [Queues.held, hs, Option.toList] at hc ⊢
        rw [nonEmptyBatches_append, hc, nonEmptyBatches_append, nonEmptyBatches_append,
          List.append_assoc]
        congr 1
        exact (nonEmptyBatches_append [r.state.nextQueue.queue] [p]).symm
    · simp only [(queues_push_state r.state p).1 hs]
      simp only [reduceCtorEq, if_false]
      exact hc
  | fetch =>
    have hopen := reachable_swapChannelOpen r.state hr
    have hpos := reachable_swap_nonempty r.state hr
    unfold Run.Conserved at hc ⊢
    cases hs : r.state.swapQueue with
    | none =>
      have hf := fetch_no_pending r.state hs
      refine ⟨{ state := { r.state with nextQueue := NewQueue [] }, accepted := r.accepted,
                returned := r.returned ++ [r.state.nextQueue.queue] }, ?_,
        Queues.Reachable.fetch r.state _ hr hf, ?_⟩
      · simp only [Run.step, hf]
      · simp only [Queues.held, hs, Option.toList, NewQueue] at hc ⊢
        rw [hc, nonEmptyBatches_append, nonEmptyBatches_append, nonEmptyBatches_append,
          nonEmptyBatches_nil_batch, List.append_nil]
    | some p =>
      have hc1 := hopen (by rw [hs]; simp)
      have h0 : r.state.nextQueue.Size ≠ 0 := Nat.pos_iff_ne_zero.1 (hpos (by rw [hs]; simp))
      have hf := fetch_nonempty_pending r.state p hs h0 hc1
      refine ⟨{ state := { nextQueue := NewQueue p, swapQueue := none,
                           queueSwapped := Chan.closed },
                accepted := r.accepted,
                returned := r.returned ++ [r.state.nextQueue.queue] }, ?_,
        Queues.Reachable.fetch r.state _ hr hf, ?_⟩
      · simp only [Run.step, hf]
      · simp only [Queues.held, hs, Option.toList, NewQueue] at hc ⊢
        rw [hc]
        simp [nonEmptyBatches, List.filter_append]

/-- Every sequence of calls on a reachable, conserving run returns, and ends
in a reachable, conserving run. -/
theorem steps_conserved (ops : List Op) :
    ∀ r : Run, r.state.Reachable → r.Conserved →
      ∃ r1, r.steps ops = some r1 ∧ r1.state.Reachable ∧ r1.Conserved := by
  induction ops with
  | nil => intro r hr hc; exact ⟨r, rfl, hr, hc⟩
  | cons op ops ih =>
    intro r hr hc
    obtain ⟨r1, h1, hr1, hc1⟩ := step_conserved r op hr hc
    obtain ⟨r2, h2, hr2, hc2⟩ := ih r1 hr1 hc1
    refine ⟨r2, ?_, hr2, hc2⟩
    simp only [Run.steps, h1, h2]

theorem steps_append (ops₁ ops₂ : List Op) :
    ∀ r r1 : Run, r.steps ops₁ = some r1 → r.steps (ops₁ ++ ops₂) = r1.steps ops₂ := by
  induction ops₁ with
  | nil =>
    intro r r1 h
    simp only [Run.steps, Option.some.injEq] at h
    rw [h, List.nil_append]
  | cons op ops ih =>
    intro r r1 h
    simp only [Run.steps, List.cons_append] at h ⊢
    cases hstep : r.step op with
    | none => rw [hstep] at h; exact absurd h (by simp)
    | some r0 =>
      rw [hstep] at h
      simp only at h ⊢
      exact ih r0 r1 h

/-- A `Fetch` on a reachable run returns; it leaves the accepted batches as
they are and no deferred swap, and an empty active queue when there was no
swap. -/
theorem step_fetch (r : Run) (hr : r.state.Reachable) :
    ∃ r1, r.step Op.fetch = some r1 ∧ r1.accepted = r.accepted ∧ r1.state.Reachable ∧
      r1.state.swapQueue = none ∧
      (r.state.swapQueue = none → r1.state.nextQueue = NewQueue []) := by
  have hopen := reachable_swapChannelOpen r.state hr
  have hpos := reachable_swap_nonempty r.state hr
  cases hs : r.state.swapQueue with
  | none =>
    have hf := fetch_no_pending r.state hs
    refine ⟨{ state := { r.state with nextQueue := NewQueue [] }, accepted := r.accepted,
              returned := r.returned ++ [r.state.nextQueue.queue] }, ?_, rfl,
      Queues.Reachable.fetch r.state _ hr hf, hs, fun _ => rfl⟩
    simp only [Run.step, hf]
  | some p =>
    have hc1 := hopen (by rw [hs]; simp)
    have h0 : r.state.nextQueue.Size ≠ 0 := Nat.pos_iff_ne_zero.1 (hpos (by rw [hs]; simp))
    have hf := fetch_nonempty_pending r.state p hs h0 hc1
    refine ⟨{ state := { nextQueue := NewQueue p, swapQueue := none,
                         queueSwapped := Chan.closed },
              accepted := r.accepted,
              returned := r.returned ++ [r.state.nextQueue.queue] }, ?_, rfl,
      Queues.Reachable.fetch r.state _ hr hf, rfl, fun h => absurd h (by simp)⟩
    simp only [Run.step, hf]

/-- Two `Fetch` calls on a reachable, conserving run hand out what the
`Queues` holds: afterwards the non-empty returned queues are the non-empty
accepted batches. -/
theorem flush_conserved (r : Run) (hr : r.state.Reachable) (hc : r.Conserved) :
    ∃ r2, r.steps [Op.fetch, Op.fetch] = some r2 ∧ r2.accepted = r.accepted ∧
      nonEmptyBatches r2.returned = nonEmptyBatches r.accepted := by
  obtain ⟨r1, h1, ha1, hr1, hs1, _⟩ := step_fetch r hr
  obtain ⟨r2, h2, ha2, _, hs2, hq2⟩ := step_fetch r1 hr1
  have hsteps : r.steps [Op.fetch, Op.fetch] = some r2 := by
    simp only [Run.steps, h1, h2]
  obtain ⟨r3, h3, _, hc3⟩ := steps_conserved [Op.fetch, Op.fetch] r hr hc
  rw [hsteps] at h3
  simp only [Option.some.injEq] at h3
  rw [← h3] at hc3
  refine ⟨r2, hsteps, ha2.trans ha1, ?_⟩
  unfold Run.Conserved at hc3
  rw [ha2, ha1] at hc3
  rw [hc3, nonEmptyBatches_append]
  simp only [Queues.held, hs2, hq2 hs1, Option.toList, NewQueue]
  rw [nonEmptyBatches_nil_batch, List.append_nil]

theorem start_conserved : Run.start.state.Reachable ∧ Run.start.Conserved :=
  ⟨Queues.Reachable.new, by decide⟩

/-- Claim C23, as amended.  In every `Queues` state reachable from
`NewQueues()` by `Push` and `Fetch` calls, a registered deferred swap comes
with an active queue of `Size > 0`, so the first branch of `Fetch` (active
queue empty and swap pending) is never taken.  And in every run of `Push` and
`Fetch` calls on `NewQueues()` no call panics, the non-empty accepted batches
are, in order, the non-empty queues already returned followed by the batches
the `Queues` still holds (active queue, then deferred batch), and after two
further `Fetch` calls the non-empty returned queues are exactly the non-empty
accepted batches: every accepted non-empty batch is returned by exactly one
`Fetch`. -/
theorem deferred_swap_nonempty_active (queues : Queues) (hr : queues.Reachable)
    (ops : List Op) :
    (queues.swapQueue ≠ none → 0 < queues.nextQueue.Size) ∧
    ¬ (queues.nextQueue.Size = 0 ∧ queues.swapQueue ≠ none) ∧
    (∃ r, run ops = some r ∧ r.state.Reachable ∧
      nonEmptyBatches r.accepted = nonEmptyBatches (r.returned ++ r.state.held) ∧
      ∃ r2, run (ops ++ [Op.fetch, Op.fetch]) = some r2 ∧ r2.accepted = r.accepted ∧
        nonEmptyBatches r2.returned = nonEmptyBatches r.accepted) := by
  have hpos := reachable_swap_nonempty queues hr
  refine ⟨hpos, ?_, ?_⟩
  · rintro ⟨h0, hs⟩
    have := hpos hs
    omega
  · obtain ⟨r, h1, hr1, hc1⟩ :=
      steps_conserved ops Run.start start_conserved.1 start_conserved.2
    obtain ⟨r2, h2, ha2, hret⟩ := flush_conserved r hr1 hc1
    refine ⟨r, h1, hr1, hc1, r2, ?_, ha2, hret⟩
    unfold run
    rw [steps_append ops [Op.fetch, Op.fetch] Run.start r h1]
    exact h2

/-- Claim C23 after `push(A); push(B)` on a fresh `Queues`: the swap for `B`
is registered and the active queue holds the two segments of `A`. -/
theorem deferred_swap_nonempty_active_witness :
    pushedTwice.swapQueue = some batchB ∧ 0 < pushedTwice.nextQueue.Size :=
  ⟨rfl, (deferred_swap_nonempty_active pushedTwice
    (Queues.Reachable.push _ _ (Queues.Reachable.push _ _ Queues.Reachable.new))
    [Op.push batchA, Op.push batchB]).1 (by decide)⟩

/-- Claim C23 as stated fails in its last part: on a fresh `Queues`, `push([])`
and `push(B)` are both accepted, no `Fetch` has run, and the state is the
state after `push(B)` alone; the first accepted batch was replaced without
being returned, and the `Fetch` calls that follow return `B` and then empty
queues. -/
theorem empty_batch_dropped :
    (run [Op.push [], Op.push batchB]).map (fun r => (r.accepted, r.returned))
      = some ([[], batchB], []) ∧
    (run [Op.push [], Op.push batchB]).map (fun r => r.state)
      = (run [Op.push batchB]).map (fun r => r.state) ∧
    (run [Op.push [], Op.push batchB, Op.fetch, Op.fetch, Op.fetch]).map (fun r => r.returned)
      = some [batchB, [], []] := by
  decide

/-! ## `ByStreamIDAndPosition.Less` as an order -/

/-- The lexicographic order on triples of numbers is transitive. -/
theorem lex3_trans (a₁ a₂ a₃ b₁ b₂ b₃ c₁ c₂ c₃ : Nat)
    (hab : a₁ < b₁ ∨ (a₁ = b₁ ∧ (a₂ < b₂ ∨ (a₂ = b₂ ∧ a₃ < b₃))))
    (hbc : b₁ < c₁ ∨ (b₁ = c₁ ∧ (b₂ < c₂ ∨ (b₂ = c₂ ∧ b₃ < c₃)))) :
    a₁ < c₁ ∨ (a₁ = c₁ ∧ (a₂ < c₂ ∨ (a₂ = c₂ ∧ a₃ < c₃))) := by
  omega

/-- The lexicographic order on triples of numbers: exactly one of below,
above, equal. -/
theorem lex3_trichotomy (a₁ a₂ a₃ b₁ b₂ b₃ : Nat) :
    ((a₁ < b₁ ∨ (a₁ = b₁ ∧ (a₂ < b₂ ∨ (a₂ = b₂ ∧ a₃ < b₃)))) ∨
      (b₁ < a₁ ∨ (b₁ = a₁ ∧ (b₂ < a₂ ∨ (b₂ = a₂ ∧ b₃ < a₃)))) ∨
      (a₁ = b₁ ∧ a₂ = b₂ ∧ a₃ = b₃)) ∧
    ¬ ((a₁ < b₁ ∨ (a₁ = b₁ ∧ (a₂ < b₂ ∨ (a₂ = b₂ ∧ a₃ < b₃)))) ∧
      (b₁ < a₁ ∨ (b₁ = a₁ ∧ (b₂ < a₂ ∨ (b₂ = a₂ ∧ b₃ < a₃))))) ∧
    ¬ ((a₁ < b₁ ∨ (a₁ = b₁ ∧ (a₂ < b₂ ∨ (a₂ = b₂ ∧ a₃ < b₃)))) ∧
      (a₁ = b₁ ∧ a₂ = b₂ ∧ a₃ = b₃)) ∧
    ¬ ((b₁ < a₁ ∨ (b₁ = a₁ ∧ (b₂ < a₂ ∨ (b₂ = a₂ ∧ b₃ < a₃)))) ∧
      (a₁ = b₁ ∧ a₂ = b₂ ∧ a₃ = b₃)) := by
  omega

/-- `Less` on two segments of the slice, as the lexicographic order on
`(StreamID, Part, Index)`. -/
theorem less_iff_lex (b : ByStreamIDAndPosition) (i j : Fin b.length) :
    b.Less i j = true ↔
      ((b.get i).StreamID < (b.get j).StreamID ∨
        ((b.get i).StreamID = (b.get j).StreamID ∧
          ((b.get i).Position.Part < (b.get j).Position.Part ∨
            ((b.get i).Position.Part = (b.get j).Position.Part ∧
              (b.get i).Position.Index < (b.get j).Position.Index)))) := by
  unfold ByStreamIDAndPosition.Less
  simp only
  rcases compare_cases (b.get i).StreamID (b.get j).StreamID with ⟨h, hc⟩ | ⟨h, hc⟩ | ⟨h, hc⟩
  · have h2 : (b[(i : Nat)]).StreamID < (b[(j : Nat)]).StreamID := h
    rw [hc]
    simp [h2]
  · have h2 : (b[(i : Nat)]).StreamID = (b[(j : Nat)]).StreamID := h
    rw [hc]
    simp [h2, Metabase.SegmentPosition.Less]
  · have h3 : (b[(j : Nat)]).StreamID < (b[(i : Nat)]).StreamID := h
    have hnlt : ¬ (b[(i : Nat)]).StreamID < (b[(j : Nat)]).StreamID := Nat.lt_asymm h3
    have hne : (b[(i : Nat)]).StreamID ≠ (b[(j : Nat)]).StreamID := by
      intro e
      rw [e] at h3
      exact lt_irrefl _ h3
    rw [hc]
    simp [hne, hnlt]

theorem position_eq_iff (p q : SegmentPosition) : p = q ↔ p.Part = q.Part ∧ p.Index = q.Index := by
  cases p; cases q; simp

/-- Claim C24.  For every slice `b` and valid indices `i`, `j`, `k`:
`Less(i, i)` is false; `Less(i, j)` and `Less(j, k)` imply `Less(i, k)`; and
exactly one of `Less(i, j)`, `Less(j, i)`, or (`b[i]` and `b[j]` have equal
`StreamID` and equal `Position`) holds. -/
theorem less_strict_total_order (b : ByStreamIDAndPosition) (i j k : Fin b.length) :
    b.Less i i = false ∧
    (b.Less i j = true → b.Less j k = true → b.Less i k = true) ∧
    ((b.Less i j = true ∨ b.Less j i = true ∨
        ((b.get i).StreamID = (b.get j).StreamID ∧ (b.get i).Position = (b.get j).Position)) ∧
      ¬ (b.Less i j = true ∧ b.Less j i = true) ∧
      ¬ (b.Less i j = true ∧
        ((b.get i).StreamID = (b.get j).StreamID ∧ (b.get i).Position = (b.get j).Position)) ∧
      ¬ (b.Less j i = true ∧
        ((b.get i).StreamID = (b.get j).StreamID ∧
          (b.get i).Position = (b.get j).Position))) := by
  refine ⟨?_, ?_, ?_⟩
  · cases hii : b.Less i i with
    | false => rfl
    | true =>
      have h := (less_iff_lex b i i).1 hii
      have hn := (lex3_trichotomy (b.get i).StreamID (b.get i).Position.Part
        (b.get i).Position.Index (b.get i).StreamID (b.get i).Position.Part
        (b.get i).Position.Index).2.1
      exact absurd ⟨h, h⟩ hn
  · intro hij hjk
    rw [less_iff_lex] at hij hjk ⊢
    exact lex3_trans _ _ _ _ _ _ _ _ _ hij hjk
  · rw [less_iff_lex b i j, less_iff_lex b j i, position_eq_iff]
    exact lex3_trichotomy (b.get i).StreamID (b.get i).Position.Part (b.get i).Position.Index
      (b.get j).StreamID (b.get j).Position.Part (b.get j).Position.Index

/-- Claim C24 on a slice of three segments in increasing order: `Less(0, 1)`
and `Less(1, 2)` give `Less(0, 2)`. -/
theorem less_strict_total_order_witness :
    ByStreamIDAndPosition.Less [seg 1 0, seg 1 1, seg 2 0] ⟨0, by decide⟩ ⟨2, by decide⟩ = true :=
  (less_strict_total_order [seg 1 0, seg 1 1, seg 2 0] ⟨0, by decide⟩ ⟨1, by decide⟩
    ⟨2, by decide⟩).2.1 (by decide) (by decide)

end Audit
